import Mathlib

/-!
Verification of the VoltAgent per-invocation execution engine
(`packages/core/src/agent/agent.ts` and `packages/core/src/agent/error-utils.ts`).

The development shallowly embeds the data model and the operations of the
agent core: the JS value graph used by error sanitization, the insertion
ordered string-keyed map backing `context` and `systemContext`, the tool
execution wrapper, the step recorder, the bail protocol state machine, the
hook merger, the context-map resolution and the abort-controller wiring of
`createOperationContext`, and the stream selection of `streamText`.

Definitions are translated from the TypeScript source.  Two helpers that the
source imports from repository packages whose code is not available here
(`safeStringify` from `@voltagent/internal/utils`, and the bail error tag from
`packages/core/src/agent/errors.ts`) are modelled from the specification and
marked as such in their doc comments.  Unbounded JS recursion is represented
with an explicit fuel argument; `none` means the call does not terminate (in
a real engine: the stack overflows).
-/

namespace Voltagent

/-! ## Insertion-ordered string-keyed map (JS `Map` semantics) -/

/-- A JS `Map` with string keys: insertion ordered, `set` updates in place. -/
abbrev MapM (α : Type) : Type := List (String × α)

namespace MapM

/-- The empty map (`new Map()`). -/
def empty {α : Type} : MapM α := []

/-- `Map.prototype.get`: the binding for the key, if any. -/
def get {α : Type} : MapM α → String → Option α
  | [], _ => none
  | (k', v) :: rest, k => if k' = k then some v else get rest k

/-- `Map.prototype.set`: update the existing binding in place, else append. -/
def set {α : Type} : MapM α → String → α → MapM α
  | [], k, v => [(k, v)]
  | (k', v') :: rest, k, v =>
      if k' = k then (k', v) :: rest else (k', v') :: set rest k v

/-- `Map.prototype.has`. -/
def has {α : Type} (m : MapM α) (k : String) : Bool := (m.get k).isSome

theorem get_set_self {α : Type} (m : MapM α) (k : String) (v : α) :
    (m.set k v).get k = some v := by
  induction m with
  | nil => simp [set, get]
  | cons hd tl ih =>
      obtain ⟨k', v'⟩ := hd
      by_cases hk : k' = k
      · simp [set, get, hk]
      · simp [set, get, hk, ih]

theorem get_set_ne {α : Type} (m : MapM α) (k k' : String) (v : α) (h : k ≠ k') :
    (m.set k v).get k' = m.get k' := by
  induction m with
  | nil => simp [set, get, h]
  | cons hd tl ih =>
      obtain ⟨k₀, v₀⟩ := hd
      by_cases hk : k₀ = k
      · subst hk
        have : k₀ ≠ k' := h
        simp [set, get, this]
      · simp [set, get, hk, ih]

end MapM

/-! ## Generic list helpers -/

/-- Concatenate the images of a function over a list. -/
def catMap {α β : Type} (f : α → List β) : List α → List β
  | [] => []
  | x :: xs => f x ++ catMap f xs

theorem mem_catMap_of_mem {α β : Type} {f : α → List β} {w : α} {l : List α}
    {b : β} (hw : w ∈ l) (hb : b ∈ f w) : b ∈ catMap f l := by
  induction l with
  | nil => cases hw
  | cons x xs ih =>
      cases hw with
      | head => exact List.mem_append_left _ hb
      | tail _ hw' => exact List.mem_append_right _ (ih hw')

theorem catMap_append {α β : Type} (f : α → List β) (l₁ l₂ : List α) :
    catMap f (l₁ ++ l₂) = catMap f l₁ ++ catMap f l₂ := by
  induction l₁ with
  | nil => simp [catMap]
  | cons x xs ih => simp [catMap, ih]

/-- Sequence an option-valued function over a list, failing if any element
fails.  This is how a JS `Array.prototype.map` whose callback may diverge is
represented: `none` when some element's computation does not terminate. -/
def optionMapList {α β : Type} (f : α → Option β) : List α → Option (List β)
  | [] => some []
  | x :: xs => do
      let y ← f x
      let ys ← optionMapList f xs
      pure (y :: ys)

/-! ## JS value graphs

JavaScript objects form a graph that may contain cycles.  A value is either a
primitive leaf or a reference into a heap of nodes; arrays and plain objects
are heap nodes whose children are values, so reference cycles are expressible.
`Error`, `Date`, `Map` and `Set` instances are modelled as leaf-like heap
nodes (the sanitizer never recurses into them). -/

/-- Heap address of a JS object. -/
abbrev Addr := Nat

/-- A JS value: a primitive or a reference to a heap node. -/
inductive JSValue : Type where
  | undef : JSValue
  | null : JSValue
  | bool : Bool → JSValue
  | num : Int → JSValue
  | str : String → JSValue
  | ref : Addr → JSValue
deriving Repr, DecidableEq

/-- A JS heap node: array, plain object, or an opaque special instance
(`Error` with name/message/stack, `Date` with its ISO string, `Map`, `Set`). -/
inductive HeapNode : Type where
  | arr : List JSValue → HeapNode
  | obj : List (String × JSValue) → HeapNode
  | errNode : String → String → String → HeapNode
  | dateNode : String → HeapNode
  | mapNode : HeapNode
  | setNode : HeapNode

/-- A JS heap: finite association of addresses to nodes. -/
abbrev Heap := List (Addr × HeapNode)

/-- Look an address up in the heap. -/
def lookupHeap : Heap → Addr → Option HeapNode
  | [], _ => none
  | (a', n) :: rest, a => if a' = a then some n else lookupHeap rest a

/-! ## `safeStringify` (modelled from the spec) -/

/-- Output tokens of the stringifier.  Tracking tokens instead of a flat
string lets theorems talk about the circular marker without string surgery;
`render` flattens the tokens to the actual string. -/
inductive Tok : Type where
  | lit : String → Tok
  | circularMarker : Tok
  | fuelOut : Tok
deriving Repr, DecidableEq

/-- Text of one token; the circular marker renders as `[Circular]`. -/
def renderTok : Tok → String
  | .lit s => s
  | .circularMarker => "[Circular]"
  | .fuelOut => ""

/-- Characters of a token list, in order. -/
def renderChars : List Tok → List Char
  | [] => []
  | t :: ts => (renderTok t).data ++ renderChars ts

/-- Flatten a token list to a string. -/
def render (ts : List Tok) : String := String.mk (renderChars ts)

/-- Rendering of a primitive leaf value. -/
def leafText : JSValue → String
  | .undef => "undefined"
  | .null => "null"
  | .bool true => "true"
  | .bool false => "false"
  | .num n => toString n
  | .str s => String.append (String.append "\x22" s) "\x22"
  | .ref _ => ""

/-- Modelled from the spec: `safeStringify` from `@voltagent/internal/utils`
(that package is not part of the provided sources).  Per the spec it produces
a JSON-like string in which a reference back to an object already on the
current traversal path is replaced by a string form containing the
`[Circular]` marker.  `visited` is the list of addresses on the path; `fuel`
bounds the recursion depth and is instantiated with `heap size + 1` by
`safeStringify`, which suffices because the path grows by one fresh address
per descent. -/
def stringifyTokens : Nat → List Addr → Heap → JSValue → List Tok
  | 0, _, _, _ => [Tok.fuelOut]
  | n + 1, visited, h, v =>
      match v with
      | .ref a =>
          if a ∈ visited then [Tok.circularMarker]
          else
            match lookupHeap h a with
            | some (.arr items) =>
                Tok.lit "[" ::
                  catMap (fun w => stringifyTokens n (a :: visited) h w ++ [Tok.lit ","]) items
                  ++ [Tok.lit "]"]
            | some (.obj fields) =>
                Tok.lit "\x7b" ::
                  catMap
                    (fun kv =>
                      Tok.lit (String.append kv.1 ":") ::
                        (stringifyTokens n (a :: visited) h kv.2 ++ [Tok.lit ","]))
                    fields
                  ++ [Tok.lit "\x7d"]
            | some (.errNode nm msg _) =>
                [Tok.lit (String.append nm (String.append ": " msg))]
            | some (.dateNode iso) => [Tok.lit iso]
            | some .mapNode => [Tok.lit "Map"]
            | some .setNode => [Tok.lit "Set"]
            | none => [Tok.lit "null"]
      | leaf => [Tok.lit (leafText leaf)]

/-- Token output of `safeStringify` on a value over a heap. -/
def safeStringifyTokens (h : Heap) (v : JSValue) : List Tok :=
  stringifyTokens (h.length + 1) [] h v

/-- Modelled from the spec: the string produced by `safeStringify`. -/
def safeStringify (h : Heap) (v : JSValue) : String :=
  render (safeStringifyTokens h v)

/-! ## `sanitizeErrorValue` (from `error-utils.ts`) -/

/-- The sanitized, JSON-serializable values produced by `sanitizeErrorValue`:
either a primitive passed through, an array of sanitized items, the
`[name, message, stack]` projection of an `Error`, or a string produced by
stringification. -/
inductive SanValue : Type where
  | undef : SanValue
  | null : SanValue
  | bool : Bool → SanValue
  | num : Int → SanValue
  | str : String → SanValue
  | arr : List SanValue → SanValue
  | errObj : String → String → String → SanValue

/-- `sanitizeErrorValue` from `error-utils.ts`, branch for branch:
`null`/`undefined` and primitives pass through; arrays recurse element-wise
(with no cycle tracking — the fuel models the JS call stack, and `none`
models non-termination); `Error` instances project to name/message/stack;
`Date` to its ISO string; `Map`/`Set` and all remaining objects go through
`safeStringify`. -/
def sanitizeErrorValue : Nat → Heap → JSValue → Option SanValue
  | 0, _, _ => none
  | n + 1, h, v =>
      match v with
      | .undef => some .undef
      | .null => some .null
      | .bool b => some (.bool b)
      | .num m => some (.num m)
      | .str s => some (.str s)
      | .ref a =>
          match lookupHeap h a with
          | some (.arr items) =>
              (optionMapList (fun w => sanitizeErrorValue n h w) items).map SanValue.arr
          | some (.errNode nm msg st) => some (.errObj nm msg st)
          | some (.dateNode iso) => some (.str iso)
          | some .mapNode => some (.str (safeStringify h (.ref a)))
          | some .setNode => some (.str (safeStringify h (.ref a)))
          | some (.obj _) => some (.str (safeStringify h (.ref a)))
          | none => some (.str (safeStringify h (.ref a)))

/-! ## Reachability in a JS value graph, and circularity -/

/-- The child values of a heap node that stringification and sanitization
recurse into: array items and object field values. -/
def nodeChildren : HeapNode → List JSValue
  | .arr items => items
  | .obj fields => fields.map Prod.snd
  | _ => []

/-- `ReachesN h v t n`: starting from value `v`, the address `t` is reachable
in exactly `n` child-descent steps through heap `h`. -/
inductive ReachesN (h : Heap) : JSValue → Addr → Nat → Prop where
  | here (a : Addr) : ReachesN h (.ref a) a 0
  | step (a : Addr) (node : HeapNode) (w : JSValue) (t : Addr) (n : Nat)
      (hl : lookupHeap h a = some node) (hw : w ∈ nodeChildren node)
      (hr : ReachesN h w t n) : ReachesN h (.ref a) t (n + 1)

/-- If a value reaches an address that is already on the traversal path, the
stringifier emits the circular marker (given fuel covering the path length). -/
theorem circ_mem_stringify {h : Heap} {v : JSValue} {t : Addr} {n : Nat}
    (hr : ReachesN h v t n) :
    ∀ (visited : List Addr) (fuel : Nat), t ∈ visited → n + 1 ≤ fuel →
      Tok.circularMarker ∈ stringifyTokens fuel visited h v := by
  induction hr with
  | here a =>
      intro visited fuel ht hf
      obtain ⟨f, rfl⟩ : ∃ f, fuel = f + 1 := ⟨fuel - 1, by omega⟩
      simp [stringifyTokens, ht]
  | step a node w t n hl hw hr ih =>
      intro visited fuel ht hf
      obtain ⟨f, rfl⟩ : ∃ f, fuel = f + 1 := ⟨fuel - 1, by omega⟩
      by_cases ha : a ∈ visited
      · simp [stringifyTokens, ha]
      · have hmem := ih (a :: visited) f (List.mem_cons_of_mem a ht) (by omega)
        cases node with
        | arr items =>
            simp only [stringifyTokens, if_neg ha, hl]
            refine List.mem_cons_of_mem _ (List.mem_append_left _ ?_)
            exact mem_catMap_of_mem hw (List.mem_append_left _ hmem)
        | obj fields =>
            simp only [stringifyTokens, if_neg ha, hl]
            simp only [nodeChildren, List.mem_map] at hw
            obtain ⟨kv, hkv, hkv2⟩ := hw
            refine List.mem_cons_of_mem _ (List.mem_append_left _ ?_)
            refine mem_catMap_of_mem hkv (List.mem_cons_of_mem _ ?_)
            exact List.mem_append_left _ (hkv2 ▸ hmem)
        | errNode nm msg st => cases hw
        | dateNode iso => cases hw
        | mapNode => cases hw
        | setNode => cases hw

/-- A token of the list contributes its characters contiguously to the
rendering. -/
theorem renderChars_eq_of_mem {t : Tok} {ts : List Tok} (h : t ∈ ts) :
    ∃ l r, renderChars ts = l ++ (renderTok t).data ++ r := by
  induction ts with
  | nil => cases h
  | cons x xs ih =>
      cases h with
      | head => exact ⟨[], renderChars xs, by simp [renderChars]⟩
      | tail _ h' =>
          obtain ⟨l, r, he⟩ := ih h'
          exact ⟨(renderTok x).data ++ l, r, by simp [renderChars, he]⟩

/-- A heap consisting of a single array whose only element is the array
itself (`const a = []; a.push(a)`). -/
def selfArrayHeap : Heap := [(0, .arr [.ref 0])]

/-- On the self-referential array, the element-wise recursion of
`sanitizeErrorValue` never terminates: no amount of fuel produces a result
(in a JS engine, the recursion overflows the call stack). -/
theorem sanitize_selfArray_none :
    ∀ fuel, sanitizeErrorValue fuel selfArrayHeap (.ref 0) = none := by
  intro fuel
  induction fuel with
  | zero => rfl
  | succ n ih =>
      simp only [selfArrayHeap] at ih
      simp [sanitizeErrorValue, selfArrayHeap, lookupHeap, optionMapList, ih]

/-- Claim C9 (counterexample).  The claim states that `sanitizeErrorValue`
terminates with a `[Circular]`-marked string on every self-referential input.
On the self-referential array it does not terminate at all, for any fuel. -/
theorem sanitizeErrorValue_selfArray_diverges :
    ¬ ∃ fuel res, sanitizeErrorValue fuel selfArrayHeap (.ref 0) = some res := by
  rintro ⟨fuel, res, hres⟩
  rw [sanitize_selfArray_none fuel] at hres
  cases hres

/-- Claim C9 (corrected).  For every plain (non-array) object containing a
self-reference — a field value from which the object's own address is
reachable in `n` child steps, `n` within the heap size — `sanitizeErrorValue`
terminates (with any positive fuel) and returns a string containing the
`[Circular]` marker.  Self-referential arrays are the exception: on them the
element-wise array recursion does not terminate. -/
theorem sanitizeErrorValue_circular_object (h : Heap) (a : Addr)
    (fields : List (String × JSValue)) (k : String) (w : JSValue) (n fuel : Nat)
    (hl : lookupHeap h a = some (.obj fields))
    (hfield : (k, w) ∈ fields)
    (hr : ReachesN h w a n)
    (hn : n + 2 ≤ h.length + 1) :
    sanitizeErrorValue (fuel + 1) h (.ref a) = some (.str (safeStringify h (.ref a)))
      ∧ ∃ l r, (safeStringify h (.ref a)).data = l ++ "[Circular]".data ++ r := by
  constructor
  · simp [sanitizeErrorValue, hl]
  · have hmem : Tok.circularMarker ∈ safeStringifyTokens h (.ref a) := by
      unfold safeStringifyTokens
      obtain ⟨L, hL⟩ : ∃ L, h.length = L + 1 := by
        rcases h with _ | ⟨hd, tl⟩
        · exfalso
          simp [lookupHeap] at hl
        · exact ⟨List.length tl, by simp⟩
      rw [hL]
      have ha : a ∉ ([] : List Addr) := by simp
      simp only [stringifyTokens, if_neg ha, hl]
      have hcirc := circ_mem_stringify hr [a] (L + 1)
        (List.mem_singleton.mpr rfl) (by omega)
      refine List.mem_cons_of_mem _ (List.mem_append_left _ ?_)
      refine mem_catMap_of_mem hfield (List.mem_cons_of_mem _ ?_)
      exact List.mem_append_left _ hcirc
    obtain ⟨l, r, he⟩ := renderChars_eq_of_mem hmem
    exact ⟨l, r, he⟩

/-- A heap with a single plain object whose field `self` refers back to the
object itself. -/
def selfObjectHeap : Heap := [(0, .obj [("self", .ref 0)])]

/-- Witness for the corrected C9 theorem at the direct self-referential
object. -/
theorem sanitizeErrorValue_circular_object_witness :
    sanitizeErrorValue 1 selfObjectHeap (.ref 0)
        = some (.str (safeStringify selfObjectHeap (.ref 0)))
      ∧ ∃ l r, (safeStringify selfObjectHeap (.ref 0)).data
          = l ++ "[Circular]".data ++ r :=
  sanitizeErrorValue_circular_object selfObjectHeap 0 [("self", .ref 0)]
    "self" (.ref 0) 0 0 rfl (by decide) (.here 0) (by decide)

/-! ## `buildToolErrorResult` (from `error-utils.ts`) -/

/-- A thrown JS `Error`: intrinsic fields, an optional `cause`, the remaining
own enumerable properties (in `Object.getOwnPropertyNames` order), and the
tool-denial marker checked by `isToolDeniedError` (the error class itself
lives in `agent/errors.ts`, outside the provided sources; only its tag is
needed here).  Function-valued properties are omitted from the model; the
source skips them. -/
structure JSError : Type where
  name : String
  message : String
  stack : String
  cause : Option JSValue
  props : List (String × JSValue)
  isToolDenied : Bool

/-- The property names `buildToolErrorResult` never copies from the error. -/
def protectedKeys : List String := ["name", "message", "stack", "cause", "error"]

/-- The loop over `Object.getOwnPropertyNames(error)`: skip protected keys
and `undefined` values, sanitize the rest into the payload. -/
def sanitizeProps (fuel : Nat) (h : Heap) :
    List (String × JSValue) → MapM SanValue → Option (MapM SanValue)
  | [], acc => some acc
  | (key, v) :: rest, acc =>
      if key ∈ protectedKeys then sanitizeProps fuel h rest acc
      else if v = JSValue.undef then sanitizeProps fuel h rest acc
      else do
        let sv ← sanitizeErrorValue fuel h v
        sanitizeProps fuel h rest (acc.set key sv)

/-- `cause` handling: an `Error` cause projects to name/message/stack,
anything else is sanitized recursively. -/
def sanitizeCause (fuel : Nat) (h : Heap) (c : JSValue) : Option SanValue :=
  match c with
  | .ref a =>
      match lookupHeap h a with
      | some (.errNode nm msg st) => some (.errObj nm msg st)
      | _ => sanitizeErrorValue fuel h c
  | _ => sanitizeErrorValue fuel h c

/-- The object literal `buildToolErrorResult` starts from: `error: true`, the
error's name/message/stack, and the call identifiers. -/
def baseErrorPayload (e : JSError) (toolCallId toolName : String) : MapM SanValue :=
  [("error", .bool true), ("name", .str e.name), ("message", .str e.message),
   ("stack", .str e.stack), ("toolCallId", .str toolCallId),
   ("toolName", .str toolName)]

/-- `buildToolErrorResult` from `error-utils.ts`: the base payload, then the
optional `cause`, then the sanitized remaining own properties.  `none` models
a sanitization that does not terminate (the exception would escape the
wrapper in that case). -/
def buildToolErrorResult (fuel : Nat) (h : Heap) (e : JSError)
    (toolCallId toolName : String) : Option (MapM SanValue) :=
  match e.cause with
  | none => sanitizeProps fuel h e.props (baseErrorPayload e toolCallId toolName)
  | some c => do
      let sc ← sanitizeCause fuel h c
      sanitizeProps fuel h e.props
        ((baseErrorPayload e toolCallId toolName).set "cause" sc)

/-! ## The tool execution wrapper (`createToolExecutionFactory`,
`validateToolOutput` from `agent.ts`) -/

/-- Result of the output schema's `safeParse`: success carries the (possibly
transformed) parsed data, failure carries the issue message. -/
inductive ParseOutcome : Type where
  | success : JSValue → ParseOutcome
  | failure : String → ParseOutcome

/-- The error thrown by `validateToolOutput` on schema failure, including the
`validationErrors` and `actualOutput` properties it assigns onto the error. -/
def validationError (msg : String) (result : JSValue) : JSError :=
  { name := "Error"
  , message := String.append "Output validation failed: " msg
  , stack := "stack"
  , cause := none
  , props := [("validationErrors", .str msg), ("actualOutput", result)]
  , isToolDenied := false }

/-- `validateToolOutput` from `agent.ts`: no schema (or no `safeParse`)
passes the result through unchanged; a successful parse returns the parsed
data; a failed parse throws. -/
def validateToolOutput (result : JSValue)
    (outputSchema : Option (JSValue → ParseOutcome)) : Except JSError JSValue :=
  match outputSchema with
  | none => .ok result
  | some parse =>
      match parse result with
      | .success data => .ok data
      | .failure msg => .error (validationError msg result)

/-- The inputs of one wrapped tool invocation: the pre-execution hook's
outcome, whether the tool has an `execute` method, the outcome of `execute`,
and the optional output schema. -/
structure ToolSetup : Type where
  onToolStartThrows : Option JSError
  hasExecute : Bool
  executeOutcome : Except JSError JSValue
  outputSchema : Option (JSValue → ParseOutcome)

/-- The error thrown when the tool has no `execute` method. -/
def missingExecuteError (toolName : String) : JSError :=
  { name := "Error"
  , message := String.append "Tool " (String.append toolName
      " does not have \x22execute\x22 method")
  , stack := "stack"
  , cause := none
  , props := []
  , isToolDenied := false }

/-- The `try` block of the wrapped execute from `createToolExecutionFactory`:
run the `onToolStart` hook (which may throw), require `execute`, run it, then
validate the output.  On success both the raw result and the validated result
are available (the source returns the raw one and hands the validated one to
`onToolEnd`). -/
def toolExecuteBody (tool : ToolSetup) (toolName : String) :
    Except JSError (JSValue × JSValue) :=
  match tool.onToolStartThrows with
  | some e => .error e
  | none =>
      if tool.hasExecute then
        match tool.executeOutcome with
        | .error e => .error e
        | .ok result =>
            match validateToolOutput result tool.outputSchema with
            | .error e => .error e
            | .ok validated => .ok (result, validated)
      else .error (missingExecuteError toolName)

/-- What the wrapped execute returns to the model invocation layer. -/
inductive ToolRet : Type where
  | value : JSValue → ToolRet
  | errorPayload : MapM SanValue → ToolRet

/-- Observable outcome of one wrapped tool invocation: the returned value,
what the `onToolEnd` hook saw, and whether the wrapper aborted the chain
because of a tool denial. -/
structure ToolWrapOutcome : Type where
  ret : ToolRet
  onToolEndOutput : Option JSValue
  onToolEndSawError : Bool
  abortedWithDenial : Bool

/-- The wrapped execute produced by `createToolExecutionFactory` (tracing and
logging omitted): the call id is `options?.toolCallId ?? randomUUID()`; the
`catch` block builds the structured error payload, reports the error to
`onToolEnd`, aborts the chain on a tool denial, and returns the payload
instead of rethrowing.  `none` models a payload construction that does not
terminate. -/
def wrappedToolExecute (fuel : Nat) (h : Heap) (tool : ToolSetup)
    (toolCallIdOpt : Option String) (freshId : String) (toolName : String) :
    Option ToolWrapOutcome :=
  let toolCallId := toolCallIdOpt.getD freshId
  match toolExecuteBody tool toolName with
  | .ok (result, validated) =>
      some { ret := .value result
           , onToolEndOutput := some validated
           , onToolEndSawError := false
           , abortedWithDenial := false }
  | .error e => do
      let payload ← buildToolErrorResult fuel h e toolCallId toolName
      pure { ret := .errorPayload payload
           , onToolEndOutput := none
           , onToolEndSawError := true
           , abortedWithDenial := e.isToolDenied }

/-! ### Payload field lemmas -/

theorem sanitizeProps_get_protected {fuel : Nat} {h : Heap}
    {props : List (String × JSValue)} {acc out : MapM SanValue} {k : String}
    (hk : k ∈ protectedKeys)
    (hrun : sanitizeProps fuel h props acc = some out) :
    out.get k = acc.get k := by
  induction props generalizing acc with
  | nil =>
      have h2 : some acc = some out := hrun
      injection h2 with h2
      rw [← h2]
  | cons p rest ih =>
      obtain ⟨key, v⟩ := p
      by_cases hkey : key ∈ protectedKeys
      · rw [sanitizeProps, if_pos hkey] at hrun
        exact ih hrun
      · rw [sanitizeProps, if_neg hkey] at hrun
        by_cases hv : v = JSValue.undef
        · rw [if_pos hv] at hrun
          exact ih hrun
        · rw [if_neg hv] at hrun
          cases hsv : sanitizeErrorValue fuel h v with
          | none => rw [hsv] at hrun; cases hrun
          | some sv =>
              rw [hsv] at hrun
              have hrun2 : sanitizeProps fuel h rest (acc.set key sv) = some out := hrun
              have := ih hrun2
              rw [this]
              have hne : k ≠ key := fun he => hkey (he ▸ hk)
              exact MapM.get_set_ne acc key k sv (fun he => hne he.symm)

theorem sanitizeProps_get_absent {fuel : Nat} {h : Heap}
    {props : List (String × JSValue)} {acc out : MapM SanValue} {k : String}
    (hk : ∀ p ∈ props, p.1 ≠ k)
    (hrun : sanitizeProps fuel h props acc = some out) :
    out.get k = acc.get k := by
  induction props generalizing acc with
  | nil =>
      have h2 : some acc = some out := hrun
      injection h2 with h2
      rw [← h2]
  | cons p rest ih =>
      obtain ⟨key, v⟩ := p
      have hkk : key ≠ k := hk (key, v) (List.mem_cons_self _ _)
      have hk' : ∀ p ∈ rest, p.1 ≠ k := fun p hp => hk p (List.mem_cons_of_mem _ hp)
      by_cases hkey : key ∈ protectedKeys
      · rw [sanitizeProps, if_pos hkey] at hrun
        exact ih hk' hrun
      · rw [sanitizeProps, if_neg hkey] at hrun
        by_cases hv : v = JSValue.undef
        · rw [if_pos hv] at hrun
          exact ih hk' hrun
        · rw [if_neg hv] at hrun
          cases hsv : sanitizeErrorValue fuel h v with
          | none => rw [hsv] at hrun; cases hrun
          | some sv =>
              rw [hsv] at hrun
              have hrun2 : sanitizeProps fuel h rest (acc.set key sv) = some out := hrun
              rw [ih hk' hrun2]
              exact MapM.get_set_ne acc key k sv hkk

theorem sanitizeProps_get_isSome {fuel : Nat} {h : Heap}
    {props : List (String × JSValue)} {acc out : MapM SanValue} {k : String}
    (hk : (acc.get k).isSome = true)
    (hrun : sanitizeProps fuel h props acc = some out) :
    (out.get k).isSome = true := by
  induction props generalizing acc with
  | nil =>
      have h2 : some acc = some out := hrun
      injection h2 with h2
      rw [← h2]
      exact hk
  | cons p rest ih =>
      obtain ⟨key, v⟩ := p
      by_cases hkey : key ∈ protectedKeys
      · rw [sanitizeProps, if_pos hkey] at hrun
        exact ih hk hrun
      · rw [sanitizeProps, if_neg hkey] at hrun
        by_cases hv : v = JSValue.undef
        · rw [if_pos hv] at hrun
          exact ih hk hrun
        · rw [if_neg hv] at hrun
          cases hsv : sanitizeErrorValue fuel h v with
          | none => rw [hsv] at hrun; cases hrun
          | some sv =>
              rw [hsv] at hrun
              have hrun2 : sanitizeProps fuel h rest (acc.set key sv) = some out := hrun
              refine ih ?_ hrun2
              by_cases hkk : key = k
              · subst hkk
                rw [MapM.get_set_self]
                rfl
              · rw [MapM.get_set_ne acc key k sv hkk]
                exact hk

theorem baseErrorPayload_gets (e : JSError) (tid tname : String) :
    (baseErrorPayload e tid tname).get "error" = some (.bool true)
      ∧ (baseErrorPayload e tid tname).get "name" = some (.str e.name)
      ∧ (baseErrorPayload e tid tname).get "message" = some (.str e.message)
      ∧ (baseErrorPayload e tid tname).get "stack" = some (.str e.stack)
      ∧ (baseErrorPayload e tid tname).get "toolCallId" = some (.str tid)
      ∧ (baseErrorPayload e tid tname).get "toolName" = some (.str tname) := by
  refine ⟨rfl, rfl, rfl, rfl, rfl, rfl⟩

/-- Claim C2 (counterexample data): a thrown error carrying a self
referential array as a custom `config` property, as in
`err.config = a` with `a = []; a.push(a)`. -/
def cyclicPropError : JSError :=
  { name := "Error"
  , message := "boom"
  , stack := "stacktrace"
  , cause := none
  , props := [("config", .ref 0)]
  , isToolDenied := false }

/-- Tool setup whose `execute` throws `cyclicPropError`. -/
def toolSetupCyclic : ToolSetup :=
  { onToolStartThrows := none
  , hasExecute := true
  , executeOutcome := .error cyclicPropError
  , outputSchema := none }

/-- Claim C2 (counterexample).  The claim says the wrapper never propagates a
thrown tool error and always returns the structured payload.  When the thrown
error carries a self-referential array as a custom property, building the
payload never terminates (in a JS engine the `RangeError` from the overflow
escapes the wrapper), so no structured payload is ever returned. -/
theorem wrappedToolExecute_cyclicProp_diverges :
    ¬ ∃ fuel out,
        wrappedToolExecute fuel selfArrayHeap toolSetupCyclic
          (some "call-1") "fresh" "demo-tool" = some out := by
  rintro ⟨fuel, out, hout⟩
  have hsan := sanitize_selfArray_none fuel
  simp only [selfArrayHeap] at hsan
  simp [wrappedToolExecute, toolExecuteBody, toolSetupCyclic, buildToolErrorResult,
    cyclicPropError, sanitizeProps, protectedKeys, selfArrayHeap, hsan] at hout

/-- Claim C2 (corrected).  For every tool invocation whose body (pre-hook,
`execute`, or output validation) throws an error whose payload construction
terminates — in particular whenever the error's own properties contain no
self-referential array — the wrapper does not propagate the exception: it
returns the structured payload, which contains `error: true` and the error's
`name`, `message` and `stack` verbatim, plus `toolCallId`/`toolName` entries,
equal to the call identifiers whenever the error has no own property of the
same name. -/
theorem wrappedToolExecute_error_payload (fuel : Nat) (h : Heap)
    (tool : ToolSetup) (toolCallIdOpt : Option String) (freshId toolName : String)
    (e : JSError) (payload : MapM SanValue)
    (hbody : toolExecuteBody tool toolName = .error e)
    (hbuild : buildToolErrorResult fuel h e (toolCallIdOpt.getD freshId) toolName
        = some payload) :
    wrappedToolExecute fuel h tool toolCallIdOpt freshId toolName
        = some { ret := .errorPayload payload
               , onToolEndOutput := none
               , onToolEndSawError := true
               , abortedWithDenial := e.isToolDenied }
      ∧ payload.get "error" = some (.bool true)
      ∧ payload.get "name" = some (.str e.name)
      ∧ payload.get "message" = some (.str e.message)
      ∧ payload.get "stack" = some (.str e.stack)
      ∧ (payload.get "toolCallId").isSome = true
      ∧ (payload.get "toolName").isSome = true
      ∧ ((∀ p ∈ e.props, p.1 ≠ "toolCallId") →
          payload.get "toolCallId" = some (.str (toolCallIdOpt.getD freshId)))
      ∧ ((∀ p ∈ e.props, p.1 ≠ "toolName") →
          payload.get "toolName" = some (.str toolName)) := by
  obtain ⟨hget1, hget2, hget3, hget4, hget5, hget6⟩ :=
    baseErrorPayload_gets e (toolCallIdOpt.getD freshId) toolName
  have hacc : ∃ acc0 : MapM SanValue,
      sanitizeProps fuel h e.props acc0 = some payload
        ∧ acc0.get "error" = some (.bool true)
        ∧ acc0.get "name" = some (.str e.name)
        ∧ acc0.get "message" = some (.str e.message)
        ∧ acc0.get "stack" = some (.str e.stack)
        ∧ acc0.get "toolCallId" = some (.str (toolCallIdOpt.getD freshId))
        ∧ acc0.get "toolName" = some (.str toolName) := by
    unfold buildToolErrorResult at hbuild
    cases hc : e.cause with
    | none =>
        rw [hc] at hbuild
        exact ⟨_, hbuild, hget1, hget2, hget3, hget4, hget5, hget6⟩
    | some c =>
        rw [hc] at hbuild
        have hbuild2 : (sanitizeCause fuel h c).bind
            (fun sc => sanitizeProps fuel h e.props
              ((baseErrorPayload e (toolCallIdOpt.getD freshId) toolName).set
                "cause" sc)) = some payload := hbuild
        cases hsc : sanitizeCause fuel h c with
        | none => rw [hsc] at hbuild2; cases hbuild2
        | some sc =>
            rw [hsc] at hbuild2
            have hb2 : sanitizeProps fuel h e.props
                ((baseErrorPayload e (toolCallIdOpt.getD freshId) toolName).set
                  "cause" sc) = some payload := hbuild2
            refine ⟨_, hb2, ?_, ?_, ?_, ?_, ?_, ?_⟩
            · rw [MapM.get_set_ne _ _ _ _ (by decide)]; exact hget1
            · rw [MapM.get_set_ne _ _ _ _ (by decide)]; exact hget2
            · rw [MapM.get_set_ne _ _ _ _ (by decide)]; exact hget3
            · rw [MapM.get_set_ne _ _ _ _ (by decide)]; exact hget4
            · rw [MapM.get_set_ne _ _ _ _ (by decide)]; exact hget5
            · rw [MapM.get_set_ne _ _ _ _ (by decide)]; exact hget6
  obtain ⟨acc0, hrun, ha1, ha2, ha3, ha4, ha5, ha6⟩ := hacc
  refine ⟨?_, ?_, ?_, ?_, ?_, ?_, ?_, ?_, ?_⟩
  · simp [wrappedToolExecute, hbody, hbuild]
  · rw [sanitizeProps_get_protected (by decide) hrun]; exact ha1
  · rw [sanitizeProps_get_protected (by decide) hrun]; exact ha2
  · rw [sanitizeProps_get_protected (by decide) hrun]; exact ha3
  · rw [sanitizeProps_get_protected (by decide) hrun]; exact ha4
  · exact sanitizeProps_get_isSome (by rw [ha5]; rfl) hrun
  · exact sanitizeProps_get_isSome (by rw [ha6]; rfl) hrun
  · intro habs
    rw [sanitizeProps_get_absent habs hrun]; exact ha5
  · intro habs
    rw [sanitizeProps_get_absent habs hrun]; exact ha6

/-- Claim C2 (witness data): a plain thrown error with one custom property. -/
def plainToolError : JSError :=
  { name := "Error"
  , message := "boom"
  , stack := "st"
  , cause := none
  , props := [("code", .str "DEMO")]
  , isToolDenied := false }

/-- Tool setup whose `execute` throws `plainToolError`. -/
def toolSetupPlainError : ToolSetup :=
  { onToolStartThrows := none
  , hasExecute := true
  , executeOutcome := .error plainToolError
  , outputSchema := none }

/-- The payload `buildToolErrorResult` produces for `plainToolError`. -/
def plainToolErrorPayload : MapM SanValue :=
  [("error", .bool true), ("name", .str "Error"), ("message", .str "boom"),
   ("stack", .str "st"), ("toolCallId", .str "call-1"),
   ("toolName", .str "demo-tool"), ("code", .str "DEMO")]

/-- Witness for the corrected C2 theorem at a concrete thrown error. -/
theorem wrappedToolExecute_error_payload_witness :
    wrappedToolExecute 1 [] toolSetupPlainError (some "call-1") "fresh" "demo-tool"
        = some { ret := .errorPayload plainToolErrorPayload
               , onToolEndOutput := none
               , onToolEndSawError := true
               , abortedWithDenial := plainToolError.isToolDenied }
      ∧ plainToolErrorPayload.get "error" = some (.bool true)
      ∧ plainToolErrorPayload.get "name" = some (.str plainToolError.name)
      ∧ plainToolErrorPayload.get "message" = some (.str plainToolError.message)
      ∧ plainToolErrorPayload.get "stack" = some (.str plainToolError.stack)
      ∧ (plainToolErrorPayload.get "toolCallId").isSome = true
      ∧ (plainToolErrorPayload.get "toolName").isSome = true
      ∧ ((∀ p ∈ plainToolError.props, p.1 ≠ "toolCallId") →
          plainToolErrorPayload.get "toolCallId" = some (.str "call-1"))
      ∧ ((∀ p ∈ plainToolError.props, p.1 ≠ "toolName") →
          plainToolErrorPayload.get "toolName" = some (.str "demo-tool")) :=
  wrappedToolExecute_error_payload 1 [] toolSetupPlainError (some "call-1")
    "fresh" "demo-tool" plainToolError plainToolErrorPayload rfl rfl

/-- Tool setup for a successful execution with an output schema. -/
def mkValidatedTool (v : JSValue) (parse : JSValue → ParseOutcome) : ToolSetup :=
  { onToolStartThrows := none
  , hasExecute := true
  , executeOutcome := .ok v
  , outputSchema := some parse }

/-- Claim C10.  When `execute` succeeds and the declared output schema
validates, the wrapper returns the tool's original raw result (not the
schema's parsed output); the parsed output goes only to the `onToolEnd` hook.
When validation fails, the thrown validation error is converted into the
structured error payload. -/
theorem wrappedToolExecute_returns_raw_result (fuel : Nat) (h : Heap)
    (toolCallIdOpt : Option String) (freshId toolName : String)
    (v : JSValue) (parse : JSValue → ParseOutcome) :
    (∀ v', parse v = .success v' →
      wrappedToolExecute fuel h (mkValidatedTool v parse) toolCallIdOpt freshId toolName
        = some { ret := .value v
               , onToolEndOutput := some v'
               , onToolEndSawError := false
               , abortedWithDenial := false })
    ∧ (∀ msg payload,
        parse v = .failure msg →
        buildToolErrorResult fuel h (validationError msg v)
            (toolCallIdOpt.getD freshId) toolName = some payload →
        wrappedToolExecute fuel h (mkValidatedTool v parse) toolCallIdOpt freshId toolName
          = some { ret := .errorPayload payload
                 , onToolEndOutput := none
                 , onToolEndSawError := true
                 , abortedWithDenial := false }) := by
  constructor
  · intro v' hp
    simp [wrappedToolExecute, toolExecuteBody, mkValidatedTool,
      validateToolOutput, hp]
  · intro msg payload hp hb
    simp [wrappedToolExecute, toolExecuteBody, mkValidatedTool,
      validateToolOutput, hp, hb]
    rfl

/-- Witness for C10: a schema that parses `"raw"` into `"parsed"`; the
wrapper still returns `"raw"` while the hook sees `"parsed"`. -/
theorem wrappedToolExecute_returns_raw_result_witness :
    wrappedToolExecute 1 []
        (mkValidatedTool (.str "raw") (fun _ => ParseOutcome.success (.str "parsed")))
        (some "id-1") "fresh" "demo-tool"
      = some { ret := .value (.str "raw")
             , onToolEndOutput := some (.str "parsed")
             , onToolEndSawError := false
             , abortedWithDenial := false } :=
  (wrappedToolExecute_returns_raw_result 1 [] (some "id-1") "fresh" "demo-tool"
    (.str "raw") (fun _ => ParseOutcome.success (.str "parsed"))).1
    (.str "parsed") rfl

/-! ## Model steps (`StepResult` slice used by the agent) -/

/-- Token usage of a step (opaque to the recorder). -/
abbrev Usage := Nat

/-- One tool call of a step. -/
structure ToolCallInfo : Type where
  toolCallId : String
  toolName : String
  input : String
deriving Repr, DecidableEq

/-- One element of an array-shaped tool output; sub-agent tools return such
arrays, whose elements may carry the `bailed: true` tag with the sub-agent's
name and final response. -/
structure ToolOutItem : Type where
  bailed : Bool
  agentName : String
  response : String
  payload : String
deriving Repr, DecidableEq

/-- A tool result's output: a plain value or an array of items. -/
inductive ToolOutput : Type where
  | plain : String → ToolOutput
  | arrOut : List ToolOutItem → ToolOutput
deriving Repr, DecidableEq

/-- One tool result of a step. -/
structure ToolResultInfo : Type where
  toolCallId : String
  toolName : String
  output : ToolOutput
deriving Repr, DecidableEq

/-- One part of a step's `content` array. -/
inductive StepPart : Type where
  | text : String → StepPart
  | reasoning : String → StepPart
  | toolCall : ToolCallInfo → StepPart
  | toolResult : ToolResultInfo → StepPart
  | toolError : String → String → StepPart
deriving Repr, DecidableEq

/-- One `StepResult` as seen by the step handler and the step recorder. -/
structure StepEvent : Type where
  content : List StepPart
  text : String
  toolCalls : List ToolCallInfo
  toolResults : List ToolResultInfo
  usage : Usage
deriving Repr, DecidableEq

/-- Values stored in the `systemContext` map (the slice the claims need):
the recorded bail result, the persisted-step counter, and the accumulated
conversation steps. -/
inductive SysVal : Type where
  | bailed : String → String → SysVal
  | count : Nat → SysVal
  | steps : List StepEvent → SysVal
deriving Repr, DecidableEq

/-- The `systemContext` key of the persisted-step counter
(`Symbol("persistedStepCount")` in the source). -/
def persistCountKey : String := "persistedStepCount"

/-- Read the persisted-step counter (`?? 0`). -/
def countOf (m : MapM SysVal) : Nat :=
  match m.get persistCountKey with
  | some (.count n) => n
  | _ => 0

/-- Read the accumulated `"conversationSteps"` entry. -/
def sysStepsOf (m : MapM SysVal) : Option (List StepEvent) :=
  match m.get "conversationSteps" with
  | some (.steps l) => some l
  | _ => none

/-! ## The step recorder (`recordStepResults` from `agent.ts`) -/

/-- Record types of `ConversationStepRecord`. -/
inductive RecType : Type where
  | text : RecType
  | toolCall : RecType
  | toolResult : RecType
deriving Repr, DecidableEq

/-- A durable `ConversationStepRecord`.  `createdAt` is a clock tick and the
generated ids come from a threaded counter, standing in for
`new Date().toISOString()` and `randomUUID()`. -/
structure ConversationStepRecord : Type where
  id : String
  conversationId : String
  userId : String
  agentId : String
  agentName : String
  operationId : String
  stepIndex : Nat
  type : RecType
  role : String
  content : Option String
  argumentsJson : Option String
  result : Option String
  usage : Usage
  subAgentId : Option String
  subAgentName : Option String
  createdAt : Nat
deriving Repr, DecidableEq

/-- The fields of the operation context that `recordStepResults` reads. -/
structure RecorderConfig : Type where
  userId : Option String
  conversationId : Option String
  agentId : String
  agentName : String
  operationId : String
  parentAgentId : Option String
deriving Repr, DecidableEq

/-- `subAgentMetadata`: present when the operation has a parent agent (the
agent metadata itself is always registered in `systemContext` at context
creation). -/
def subAgentMetaOf (cfg : RecorderConfig) : Option (String × String) :=
  match cfg.parentAgentId with
  | some _ => some (cfg.agentId, cfg.agentName)
  | none => none

/-- A generated id (`randomUUID()`), from the threaded counter. -/
def uuidStr (g : Nat) : String := String.append "uuid-" (toString g)

/-- `String.prototype.trim`, modelled over the character list (the library
`String.trim` is equivalent but does not reduce in the kernel). -/
def jsTrim (s : String) : String :=
  String.mk
    (((s.data.dropWhile Char.isWhitespace).reverse.dropWhile
        Char.isWhitespace).reverse)

/-- The stored form of a tool result's output value. -/
def toolOutputText : ToolOutput → String
  | .plain s => s
  | .arrOut items => String.append "arr:" (toString items.length)

/-- Records for the `toolCalls` of one step (id is
`toolCall.toolCallId || randomUUID()`). -/
def toolCallRecords (cfg : RecorderConfig) (uid cid : String) (idx : Nat)
    (ts : Nat) (usage : Usage) : List ToolCallInfo → Nat →
    List ConversationStepRecord × Nat
  | [], g => ([], g)
  | c :: cs, g =>
      let idg : String × Nat :=
        if c.toolCallId = "" then (uuidStr g, g + 1) else (c.toolCallId, g)
      let r : ConversationStepRecord :=
        { id := idg.1
        , conversationId := cid
        , userId := uid
        , agentId := cfg.agentId
        , agentName := cfg.agentName
        , operationId := cfg.operationId
        , stepIndex := idx
        , type := .toolCall
        , role := "assistant"
        , content := none
        , argumentsJson := some c.input
        , result := none
        , usage := usage
        , subAgentId := (subAgentMetaOf cfg).map Prod.fst
        , subAgentName := (subAgentMetaOf cfg).map Prod.snd
        , createdAt := ts }
      let rest := toolCallRecords cfg uid cid idx ts usage cs idg.2
      (r :: rest.1, rest.2)

/-- Records for the `toolResults` of one step. -/
def toolResultRecords (cfg : RecorderConfig) (uid cid : String) (idx : Nat)
    (ts : Nat) (usage : Usage) : List ToolResultInfo → Nat →
    List ConversationStepRecord × Nat
  | [], g => ([], g)
  | tr :: trs, g =>
      let idg : String × Nat :=
        if tr.toolCallId = "" then (uuidStr g, g + 1) else (tr.toolCallId, g)
      let r : ConversationStepRecord :=
        { id := idg.1
        , conversationId := cid
        , userId := uid
        , agentId := cfg.agentId
        , agentName := cfg.agentName
        , operationId := cfg.operationId
        , stepIndex := idx
        , type := .toolResult
        , role := "assistant"
        , content := none
        , argumentsJson := none
        , result := some (toolOutputText tr.output)
        , usage := usage
        , subAgentId := (subAgentMetaOf cfg).map Prod.fst
        , subAgentName := (subAgentMetaOf cfg).map Prod.snd
        , createdAt := ts }
      let rest := toolResultRecords cfg uid cid idx ts usage trs idg.2
      (r :: rest.1, rest.2)

/-- The text record of one step, present when the trimmed text is
non-empty. -/
def textRecords (cfg : RecorderConfig) (uid cid : String) (idx ts : Nat)
    (s : StepEvent) (g : Nat) : List ConversationStepRecord × Nat :=
  if jsTrim s.text = "" then ([], g)
  else
    ([{ id := uuidStr g
      , conversationId := cid
      , userId := uid
      , agentId := cfg.agentId
      , agentName := cfg.agentName
      , operationId := cfg.operationId
      , stepIndex := idx
      , type := .text
      , role := "assistant"
      , content := some (jsTrim s.text)
      , argumentsJson := none
      , result := none
      , usage := s.usage
      , subAgentId := (subAgentMetaOf cfg).map Prod.fst
      , subAgentName := (subAgentMetaOf cfg).map Prod.snd
      , createdAt := ts }], g + 1)

/-- All records of one step, `stepIndex = previouslyPersistedCount + offset`:
a text record when the trimmed text is non-empty, then one record per tool
call, then one per tool result.  Records are only built when both `userId`
and `conversationId` are set on the operation. -/
def stepRecords (cfg : RecorderConfig) (idx ts : Nat) (s : StepEvent)
    (g : Nat) : List ConversationStepRecord × Nat :=
  match cfg.userId, cfg.conversationId with
  | some uid, some cid =>
      let textPart := textRecords cfg uid cid idx ts s g
      let callPart := toolCallRecords cfg uid cid idx ts s.usage s.toolCalls textPart.2
      let resultPart := toolResultRecords cfg uid cid idx ts s.usage s.toolResults callPart.2
      (textPart.1 ++ callPart.1 ++ resultPart.1, resultPart.2)
  | _, _ => ([], g)

/-- The `newSteps.forEach` loop: per step, build its records at
`stepIndex = prev + offset`, then refresh the record timestamp. -/
def buildStepRecords (cfg : RecorderConfig) :
    List StepEvent → Nat → Nat → Nat → List ConversationStepRecord × Nat
  | [], _, _, g => ([], g)
  | s :: ss, idx, ts, g =>
      let this := stepRecords cfg idx ts s g
      let rest := buildStepRecords cfg ss (idx + 1) this.2 (this.2 + 1)
      (this.1 ++ rest.1, rest.2)

/-- The state `recordStepResults` touches: the `systemContext` slice, the
id/clock counter, and the records persisted so far. -/
structure RecState : Type where
  sysCtx : MapM SysVal
  gen : Nat
  persisted : List ConversationStepRecord
deriving Repr, DecidableEq

/-- A fresh operation's recorder state. -/
def initRecState (g : Nat) : RecState :=
  { sysCtx := MapM.empty, gen := g, persisted := [] }

/-- `recordStepResults` from `agent.ts`: choose the step source (the non
empty argument, else the accumulated `"conversationSteps"`), convert only the
steps beyond the persisted counter, advance the counter before the write is
issued, and persist the batch.  The in-memory `oc.conversationSteps` mirror
(which has no `stepIndex` and is never persisted) is omitted.  The guard
`stepRecords.length > 0 && userId && conversationId` around the write is
implied: `buildStepRecords` yields no records without both ids.  Returns the
updated state and the batch written in this pass. -/
def recordStepResults (cfg : RecorderConfig) (stepsArg : Option (List StepEvent))
    (st : RecState) : RecState × List ConversationStepRecord :=
  let storedSteps? : Option (List StepEvent) :=
    match stepsArg with
    | some l => if 0 < l.length then some l else sysStepsOf st.sysCtx
    | none => sysStepsOf st.sysCtx
  match storedSteps? with
  | none => (st, [])
  | some storedSteps =>
      if storedSteps.length = 0 then (st, [])
      else
        let prevCount := countOf st.sysCtx
        let newSteps := storedSteps.drop prevCount
        if newSteps.length = 0 then (st, [])
        else
          let sysCtx' :=
            st.sysCtx.set persistCountKey (.count (prevCount + newSteps.length))
          let built := buildStepRecords cfg newSteps prevCount st.gen (st.gen + 1)
          ({ sysCtx := sysCtx'
           , gen := built.2
           , persisted := st.persisted ++ built.1 }, built.1)

/-! ### Step-index characterization (claim C4) -/

/-- How many records one step contributes. -/
def recCountForStep (cfg : RecorderConfig) (s : StepEvent) : Nat :=
  match cfg.userId, cfg.conversationId with
  | some _, some _ =>
      (if jsTrim s.text = "" then 0 else 1) + s.toolCalls.length + s.toolResults.length
  | _, _ => 0

/-- The `stepIndex` values a pass starting at `idx` produces: one block of
equal indexes per step, blocks strictly increasing. -/
def stepIndexSpec (cfg : RecorderConfig) : Nat → List StepEvent → List Nat
  | _, [] => []
  | idx, s :: ss =>
      List.replicate (recCountForStep cfg s) idx ++ stepIndexSpec cfg (idx + 1) ss

theorem toolCallRecords_map_stepIndex (cfg : RecorderConfig) (uid cid : String)
    (idx ts : Nat) (usage : Usage) :
    ∀ (cs : List ToolCallInfo) (g : Nat),
      (toolCallRecords cfg uid cid idx ts usage cs g).1.map (fun r => r.stepIndex)
        = List.replicate cs.length idx := by
  intro cs
  induction cs with
  | nil => intro g; rfl
  | cons c cs ih =>
      intro g
      simp [toolCallRecords, ih, List.replicate_succ]

theorem toolResultRecords_map_stepIndex (cfg : RecorderConfig) (uid cid : String)
    (idx ts : Nat) (usage : Usage) :
    ∀ (trs : List ToolResultInfo) (g : Nat),
      (toolResultRecords cfg uid cid idx ts usage trs g).1.map (fun r => r.stepIndex)
        = List.replicate trs.length idx := by
  intro trs
  induction trs with
  | nil => intro g; rfl
  | cons tr trs ih =>
      intro g
      simp [toolResultRecords, ih, List.replicate_succ]

theorem textRecords_map_stepIndex (cfg : RecorderConfig) (uid cid : String)
    (idx ts : Nat) (s : StepEvent) (g : Nat) :
    (textRecords cfg uid cid idx ts s g).1.map (fun r => r.stepIndex)
      = List.replicate (if jsTrim s.text = "" then 0 else 1) idx := by
  by_cases ht : jsTrim s.text = "" <;> simp [textRecords, ht]

theorem stepRecords_map_stepIndex (cfg : RecorderConfig) (idx ts : Nat)
    (s : StepEvent) (g : Nat) :
    (stepRecords cfg idx ts s g).1.map (fun r => r.stepIndex)
      = List.replicate (recCountForStep cfg s) idx := by
  cases hu : cfg.userId with
  | none => simp [stepRecords, recCountForStep, hu]
  | some uid =>
      cases hc : cfg.conversationId with
      | none => simp [stepRecords, recCountForStep, hu, hc]
      | some cid =>
          simp only [stepRecords, recCountForStep, hu, hc, List.map_append]
          rw [textRecords_map_stepIndex, toolCallRecords_map_stepIndex,
            toolResultRecords_map_stepIndex, ← List.replicate_add,
            ← List.replicate_add]

theorem buildStepRecords_map_stepIndex (cfg : RecorderConfig) :
    ∀ (ss : List StepEvent) (idx ts g : Nat),
      (buildStepRecords cfg ss idx ts g).1.map (fun r => r.stepIndex)
        = stepIndexSpec cfg idx ss := by
  intro ss
  induction ss with
  | nil => intro idx ts g; rfl
  | cons s ss ih =>
      intro idx ts g
      simp [buildStepRecords, stepIndexSpec, stepRecords_map_stepIndex, ih]

theorem stepIndexSpec_ge (cfg : RecorderConfig) :
    ∀ (ss : List StepEvent) (idx x : Nat), x ∈ stepIndexSpec cfg idx ss → idx ≤ x := by
  intro ss
  induction ss with
  | nil => intro idx x hx; cases hx
  | cons s ss ih =>
      intro idx x hx
      rw [stepIndexSpec] at hx
      rcases List.mem_append.mp hx with hx | hx
      · rw [List.eq_of_mem_replicate hx]
      · exact Nat.le_of_succ_le (ih (idx + 1) x hx)

theorem stepIndexSpec_pairwise (cfg : RecorderConfig) :
    ∀ (ss : List StepEvent) (idx : Nat),
      (stepIndexSpec cfg idx ss).Pairwise (· ≤ ·) := by
  intro ss
  induction ss with
  | nil => intro idx; simp [stepIndexSpec]
  | cons s ss ih =>
      intro idx
      rw [stepIndexSpec]
      refine List.pairwise_append.mpr ⟨?_, ih (idx + 1), ?_⟩
      · have hrep : ∀ m : Nat, (List.replicate m idx).Pairwise (· ≤ ·) := by
          intro m
          induction m with
          | zero => simp
          | succ m ihm =>
              rw [List.replicate_succ]
              refine List.pairwise_cons.mpr ⟨?_, ihm⟩
              intro y hy
              rw [List.eq_of_mem_replicate hy]
        exact hrep _
      · intro x hx y hy
        have h1 := stepIndexSpec_ge cfg ss (idx + 1) y hy
        have h2 := List.eq_of_mem_replicate hx
        omega

/-! ### Running `recordStepResults` -/

/-- Unfolding of a non-trivial recording pass. -/
theorem recordStepResults_run (cfg : RecorderConfig) (l : List StepEvent)
    (st : RecState) (hl : l ≠ []) :
    recordStepResults cfg (some l) st
      = if (l.drop (countOf st.sysCtx)).length = 0 then (st, [])
        else
          ({ sysCtx := st.sysCtx.set persistCountKey
                (.count (countOf st.sysCtx + (l.drop (countOf st.sysCtx)).length))
           , gen := (buildStepRecords cfg (l.drop (countOf st.sysCtx))
               (countOf st.sysCtx) st.gen (st.gen + 1)).2
           , persisted := st.persisted ++ (buildStepRecords cfg
               (l.drop (countOf st.sysCtx)) (countOf st.sysCtx) st.gen (st.gen + 1)).1 },
           (buildStepRecords cfg (l.drop (countOf st.sysCtx))
             (countOf st.sysCtx) st.gen (st.gen + 1)).1) := by
  have h0 : 0 < l.length := List.length_pos.mpr hl
  have h0' : ¬ l.length = 0 := by omega
  simp only [recordStepResults, if_pos h0, h0', if_false]

/-- Claim C4 (counterexample data): a configured operation and a step with
both text and a tool call. -/
def cfgCx : RecorderConfig :=
  { userId := some "u", conversationId := some "c", agentId := "agent-1"
  , agentName := "Agent", operationId := "op-1", parentAgentId := none }

/-- A step producing a text record and a tool-call record. -/
def stepCx : StepEvent :=
  { content := []
  , text := "hi"
  , toolCalls := [{ toolCallId := "tc-1", toolName := "leet", input := "args" }]
  , toolResults := []
  , usage := 0 }

/-- Claim C4 (counterexample).  The claim says the `stepIndex` values of the
records of one operation strictly increase.  A single step that yields both a
text record and a tool-call record produces two records with the same
`stepIndex`, so the sequence is not strictly increasing. -/
theorem recordStepResults_stepIndex_not_strict :
    ¬ ((recordStepResults cfgCx (some [stepCx]) (initRecState 0)).2.map
        (fun r => r.stepIndex)).Pairwise (· < ·) := by
  decide

/-- Claim C4 (corrected).  Within one operation the `stepIndex` values of the
records produced by a recording pass are non-decreasing, and they follow the
block characterization: all records of one step share the step's index, and
records of later steps carry strictly greater indexes (`stepIndexSpec`). -/
theorem recordStepResults_stepIndex_monotone (cfg : RecorderConfig)
    (ss : List StepEvent) (g : Nat) :
    ((recordStepResults cfg (some ss) (initRecState g)).2.map (fun r => r.stepIndex))
        = stepIndexSpec cfg 0 ss
      ∧ ((recordStepResults cfg (some ss) (initRecState g)).2.map
          (fun r => r.stepIndex)).Pairwise (· ≤ ·) := by
  have hmain : (recordStepResults cfg (some ss) (initRecState g)).2.map
      (fun r => r.stepIndex) = stepIndexSpec cfg 0 ss := by
    cases hss : ss with
    | nil => rfl
    | cons s rest =>
        rw [recordStepResults_run cfg (s :: rest) (initRecState g) (by simp)]
        have hcount : countOf (initRecState g).sysCtx = 0 := rfl
        rw [hcount]
        simp only [List.drop_zero, List.length_cons, if_neg (Nat.succ_ne_zero _)]
        exact buildStepRecords_map_stepIndex cfg (s :: rest) 0 g (g + 1)
  exact ⟨hmain, hmain ▸ stepIndexSpec_pairwise cfg ss 0⟩

/-! ### Record essence (claim C3)

`randomUUID()` and the timestamp are draws from a generator; two executions
that differ only in how many draws they made produce records that agree on
everything except `id` and `createdAt`.  The essence projection drops exactly
those two generated fields. -/

/-- A step record without its generated `id` and `createdAt`. -/
structure StepRecordEssence : Type where
  conversationId : String
  userId : String
  agentId : String
  agentName : String
  operationId : String
  stepIndex : Nat
  type : RecType
  role : String
  content : Option String
  argumentsJson : Option String
  result : Option String
  usage : Usage
  subAgentId : Option String
  subAgentName : Option String
deriving Repr, DecidableEq

/-- Drop the generated fields of a record. -/
def recordEssence (r : ConversationStepRecord) : StepRecordEssence :=
  { conversationId := r.conversationId
  , userId := r.userId
  , agentId := r.agentId
  , agentName := r.agentName
  , operationId := r.operationId
  , stepIndex := r.stepIndex
  , type := r.type
  , role := r.role
  , content := r.content
  , argumentsJson := r.argumentsJson
  , result := r.result
  , usage := r.usage
  , subAgentId := r.subAgentId
  , subAgentName := r.subAgentName }

/-- Essence of a tool-call record. -/
def toolCallEssence (cfg : RecorderConfig) (uid cid : String) (idx : Nat)
    (usage : Usage) (c : ToolCallInfo) : StepRecordEssence :=
  { conversationId := cid
  , userId := uid
  , agentId := cfg.agentId
  , agentName := cfg.agentName
  , operationId := cfg.operationId
  , stepIndex := idx
  , type := .toolCall
  , role := "assistant"
  , content := none
  , argumentsJson := some c.input
  , result := none
  , usage := usage
  , subAgentId := (subAgentMetaOf cfg).map Prod.fst
  , subAgentName := (subAgentMetaOf cfg).map Prod.snd }

/-- Essence of a tool-result record. -/
def toolResultEssence (cfg : RecorderConfig) (uid cid : String) (idx : Nat)
    (usage : Usage) (tr : ToolResultInfo) : StepRecordEssence :=
  { conversationId := cid
  , userId := uid
  , agentId := cfg.agentId
  , agentName := cfg.agentName
  , operationId := cfg.operationId
  , stepIndex := idx
  , type := .toolResult
  , role := "assistant"
  , content := none
  , argumentsJson := none
  , result := some (toolOutputText tr.output)
  , usage := usage
  , subAgentId := (subAgentMetaOf cfg).map Prod.fst
  , subAgentName := (subAgentMetaOf cfg).map Prod.snd }

/-- Essences of the text part of a step. -/
def textEssences (cfg : RecorderConfig) (uid cid : String) (idx : Nat)
    (s : StepEvent) : List StepRecordEssence :=
  if jsTrim s.text = "" then []
  else
    [{ conversationId := cid
     , userId := uid
     , agentId := cfg.agentId
     , agentName := cfg.agentName
     , operationId := cfg.operationId
     , stepIndex := idx
     , type := .text
     , role := "assistant"
     , content := some (jsTrim s.text)
     , argumentsJson := none
     , result := none
     , usage := s.usage
     , subAgentId := (subAgentMetaOf cfg).map Prod.fst
     , subAgentName := (subAgentMetaOf cfg).map Prod.snd }]

/-- Essences of all records of one step. -/
def stepEssences (cfg : RecorderConfig) (idx : Nat) (s : StepEvent) :
    List StepRecordEssence :=
  match cfg.userId, cfg.conversationId with
  | some uid, some cid =>
      textEssences cfg uid cid idx s
        ++ s.toolCalls.map (toolCallEssence cfg uid cid idx s.usage)
        ++ s.toolResults.map (toolResultEssence cfg uid cid idx s.usage)
  | _, _ => []

/-- Essences of a full pass starting at `idx`. -/
def essSpec (cfg : RecorderConfig) : Nat → List StepEvent → List StepRecordEssence
  | _, [] => []
  | idx, s :: ss => stepEssences cfg idx s ++ essSpec cfg (idx + 1) ss

theorem toolCallRecords_map_essence (cfg : RecorderConfig) (uid cid : String)
    (idx ts : Nat) (usage : Usage) :
    ∀ (cs : List ToolCallInfo) (g : Nat),
      (toolCallRecords cfg uid cid idx ts usage cs g).1.map recordEssence
        = cs.map (toolCallEssence cfg uid cid idx usage) := by
  intro cs
  induction cs with
  | nil => intro g; rfl
  | cons c cs ih =>
      intro g
      simp [toolCallRecords, ih]
      rfl

theorem toolResultRecords_map_essence (cfg : RecorderConfig) (uid cid : String)
    (idx ts : Nat) (usage : Usage) :
    ∀ (trs : List ToolResultInfo) (g : Nat),
      (toolResultRecords cfg uid cid idx ts usage trs g).1.map recordEssence
        = trs.map (toolResultEssence cfg uid cid idx usage) := by
  intro trs
  induction trs with
  | nil => intro g; rfl
  | cons tr trs ih =>
      intro g
      simp [toolResultRecords, ih]
      rfl

theorem textRecords_map_essence (cfg : RecorderConfig) (uid cid : String)
    (idx ts : Nat) (s : StepEvent) (g : Nat) :
    (textRecords cfg uid cid idx ts s g).1.map recordEssence
      = textEssences cfg uid cid idx s := by
  by_cases ht : jsTrim s.text = ""
  · simp [textRecords, textEssences, ht]
  · simp [textRecords, textEssences, ht]
    rfl

theorem stepRecords_map_essence (cfg : RecorderConfig) (idx ts : Nat)
    (s : StepEvent) (g : Nat) :
    (stepRecords cfg idx ts s g).1.map recordEssence = stepEssences cfg idx s := by
  cases hu : cfg.userId with
  | none => simp [stepRecords, stepEssences, hu]
  | some uid =>
      cases hc : cfg.conversationId with
      | none => simp [stepRecords, stepEssences, hu, hc]
      | some cid =>
          simp only [stepRecords, stepEssences, hu, hc, List.map_append]
          rw [textRecords_map_essence, toolCallRecords_map_essence,
            toolResultRecords_map_essence]

theorem buildStepRecords_map_essence (cfg : RecorderConfig) :
    ∀ (ss : List StepEvent) (idx ts g : Nat),
      (buildStepRecords cfg ss idx ts g).1.map recordEssence = essSpec cfg idx ss := by
  intro ss
  induction ss with
  | nil => intro idx ts g; rfl
  | cons s ss ih =>
      intro idx ts g
      simp [buildStepRecords, essSpec, stepRecords_map_essence, ih]

theorem essSpec_append (cfg : RecorderConfig) :
    ∀ (xs ys : List StepEvent) (idx : Nat),
      essSpec cfg idx (xs ++ ys) = essSpec cfg idx xs ++ essSpec cfg (idx + xs.length) ys := by
  intro xs
  induction xs with
  | nil => intro ys idx; simp [essSpec]
  | cons x xs ih =>
      intro ys idx
      have harith : idx + 1 + xs.length = idx + (xs.length + 1) := by omega
      simp [essSpec, ih, harith]

/-- Claim C3.  For a fixed list of `n` steps, a pass over the first `k` steps
followed by a pass over all `n` steps persists exactly the records of one
full pass (up to the generated `id`/`createdAt` draws): the second pass only
converts steps beyond the `persistedCount` counter, which is advanced before
the write is issued, and the final counter equals `n`. -/
theorem recordStepResults_two_pass (cfg : RecorderConfig)
    (steps : List StepEvent) (k g g' : Nat) (hk : k ≤ steps.length) :
    ((recordStepResults cfg (some steps)
          (recordStepResults cfg (some (steps.take k)) (initRecState g)).1).1.persisted.map
        recordEssence)
        = ((recordStepResults cfg (some steps) (initRecState g')).1.persisted.map
            recordEssence)
      ∧ countOf (recordStepResults cfg (some steps)
          (recordStepResults cfg (some (steps.take k)) (initRecState g)).1).1.sysCtx
        = steps.length := by
  have hcount0 : ∀ x, countOf (initRecState x).sysCtx = 0 := fun _ => rfl
  cases hsteps : steps with
  | nil =>
      have hk0 : k = 0 := by
        rw [hsteps] at hk
        simpa using hk
      subst hk0
      constructor <;> rfl
  | cons s0 rest =>
      have hne : steps ≠ [] := by rw [hsteps]; simp
      rw [← hsteps]
      have hfull : recordStepResults cfg (some steps) (initRecState g')
          = ({ sysCtx := (initRecState g').sysCtx.set persistCountKey (.count steps.length)
             , gen := (buildStepRecords cfg steps 0 g' (g' + 1)).2
             , persisted := (buildStepRecords cfg steps 0 g' (g' + 1)).1 },
             (buildStepRecords cfg steps 0 g' (g' + 1)).1) := by
        rw [recordStepResults_run cfg steps (initRecState g') hne, hcount0]
        have hlen : ¬ (steps.drop 0).length = 0 := by
          rw [hsteps]; simp
        rw [if_neg hlen]
        simp [initRecState]
      by_cases hk0 : k = 0
      · subst hk0
        have hp1 : recordStepResults cfg (some (steps.take 0)) (initRecState g)
            = (initRecState g, []) := rfl
        rw [hp1]
        have hfullg : recordStepResults cfg (some steps) (initRecState g)
            = ({ sysCtx := (initRecState g).sysCtx.set persistCountKey (.count steps.length)
               , gen := (buildStepRecords cfg steps 0 g (g + 1)).2
               , persisted := (buildStepRecords cfg steps 0 g (g + 1)).1 },
               (buildStepRecords cfg steps 0 g (g + 1)).1) := by
          rw [recordStepResults_run cfg steps (initRecState g) hne, hcount0]
          have hlen : ¬ (steps.drop 0).length = 0 := by
            rw [hsteps]; simp
          rw [if_neg hlen]
          simp [initRecState]
        rw [hfullg, hfull]
        constructor
        · simp only [List.drop_zero]
          rw [buildStepRecords_map_essence, buildStepRecords_map_essence]
        · simp [countOf, MapM.get_set_self, initRecState, MapM.empty]
      · -- k > 0: the first pass records the first k steps and sets the counter to k
        have htk : steps.take k ≠ [] := by
          rw [hsteps]
          cases k with
          | zero => exact absurd rfl hk0
          | succ k' => simp
        have htklen : (steps.take k).length = k := by
          rw [List.length_take]
          omega
        have hp1 : recordStepResults cfg (some (steps.take k)) (initRecState g)
            = ({ sysCtx := (initRecState g).sysCtx.set persistCountKey (.count k)
               , gen := (buildStepRecords cfg (steps.take k) 0 g (g + 1)).2
               , persisted := (buildStepRecords cfg (steps.take k) 0 g (g + 1)).1 },
               (buildStepRecords cfg (steps.take k) 0 g (g + 1)).1) := by
          rw [recordStepResults_run cfg (steps.take k) (initRecState g) htk, hcount0]
          have hlen : ¬ ((steps.take k).drop 0).length = 0 := by
            simp [htklen]
            omega
          rw [if_neg hlen]
          simp [initRecState, htklen]
        rw [hp1]
        have hcount1 : countOf ((initRecState g).sysCtx.set persistCountKey
            (.count k) : MapM SysVal) = k := by
          simp [countOf, MapM.get_set_self]
        by_cases hkn : k = steps.length
        · -- nothing new in the second pass
          have hdrop : (steps.drop k).length = 0 := by
            rw [List.length_drop]
            omega
          rw [recordStepResults_run cfg steps _ hne]
          simp only [hcount1]
          rw [if_pos hdrop]
          rw [hfull]
          have htake : steps.take k = steps := by
            rw [hkn]
            exact List.take_length steps
          constructor
          · simp only [htake, List.drop_zero]
            rw [buildStepRecords_map_essence, buildStepRecords_map_essence]
          · rw [hcount1]
            exact hkn
        · -- a real second pass over the remaining steps
          have hdrop : ¬ (steps.drop k).length = 0 := by
            rw [List.length_drop]
            omega
          rw [recordStepResults_run cfg steps _ hne]
          simp only [hcount1]
          rw [if_neg hdrop]
          rw [hfull]
          dsimp only
          constructor
          · rw [List.map_append, buildStepRecords_map_essence,
              buildStepRecords_map_essence, buildStepRecords_map_essence]
            have hsplit : essSpec cfg 0 steps
                = essSpec cfg 0 (steps.take k) ++ essSpec cfg k (steps.drop k) := by
              conv_lhs => rw [← List.take_append_drop k steps]
              rw [essSpec_append, htklen]
              norm_num
            rw [hsplit]
          · simp [countOf, MapM.get_set_self]
            omega

/-- Witness for C3 at a concrete two-step run with `k = 1`. -/
theorem recordStepResults_two_pass_witness :
    ((recordStepResults cfgCx (some [stepCx, stepCx])
          (recordStepResults cfgCx (some ([stepCx, stepCx].take 1)) (initRecState 0)).1).1.persisted.map
        recordEssence)
        = ((recordStepResults cfgCx (some [stepCx, stepCx]) (initRecState 7)).1.persisted.map
            recordEssence)
      ∧ countOf (recordStepResults cfgCx (some [stepCx, stepCx])
          (recordStepResults cfgCx (some ([stepCx, stepCx].take 1)) (initRecState 0)).1).1.sysCtx
        = [stepCx, stepCx].length :=
  recordStepResults_two_pass cfgCx [stepCx, stepCx] 1 0 7 (by decide)

/-! ## Context-map resolution (`createOperationContext`, claim C5) -/

/-- The user-visible context map. -/
abbrev Ctx := MapM String

/-- The first defined of two optional values. -/
def firstSome {α : Type} (a b : Option α) : Option α :=
  match a with
  | some x => some x
  | none => b

/-- One backfill loop of `createOperationContext`:
`for (k, v) of src: if (!base.has(k)) base.set(k, v)`. -/
def backfillList (s : List (String × String)) (base : Ctx) : Ctx :=
  s.foldl (fun acc kv => if acc.has kv.1 then acc else acc.set kv.1 kv.2) base

/-- Backfill from an optional source map. -/
def backfill (base : Ctx) (src : Option Ctx) : Ctx :=
  match src with
  | none => base
  | some s => backfillList s base

/-- Context resolution from `createOperationContext`: with a parent the
parent's map is authoritative and is backfilled from the caller-supplied
(runtime) map, then from the agent's default map; without a parent the
runtime map (or the agent's map, or a fresh map) is the base; finally the
active trigger context backfills missing keys. -/
def resolveContextMap (parentContext runtimeContext agentContext triggerContext :
    Option Ctx) : Ctx :=
  let context : Ctx :=
    match parentContext with
    | some p => backfill (backfill p runtimeContext) agentContext
    | none =>
        match runtimeContext with
        | some r => backfill r agentContext
        | none =>
            match agentContext with
            | some a => a
            | none => MapM.empty
  backfill context triggerContext

theorem backfillList_get (k : String) :
    ∀ (s : List (String × String)) (base : Ctx),
      (backfillList s base).get k = firstSome (base.get k) (MapM.get s k) := by
  intro s
  induction s with
  | nil =>
      intro base
      cases hb : base.get k <;> simp [backfillList, firstSome, MapM.get, hb]
  | cons kv s ih =>
      intro base
      obtain ⟨k', v'⟩ := kv
      have hstep : backfillList ((k', v') :: s) base
          = backfillList s (if base.has k' then base else base.set k' v') := rfl
      rw [hstep, ih]
      by_cases hk' : k' = k
      · subst hk'
        by_cases hb : base.has k' = true
        · rw [if_pos hb]
          have hb' : (base.get k').isSome = true := hb
          obtain ⟨v, hv⟩ := Option.isSome_iff_exists.mp hb'
          simp [firstSome, hv, MapM.get]
        · rw [if_neg hb]
          have hset : (base.set k' v').get k' = some v' := MapM.get_set_self base k' v'
          have hbn : base.get k' = none := by
            cases hbg : base.get k' with
            | none => rfl
            | some v =>
                exact absurd (by simp [MapM.has, hbg]) hb
          simp [firstSome, hset, hbn, MapM.get]
      · have hget : (if base.has k' then base else base.set k' v').get k
            = base.get k := by
          by_cases hb : base.has k' = true
          · rw [if_pos hb]
          · rw [if_neg hb]
            exact MapM.get_set_ne base k' k v' hk'
        rw [hget]
        simp [MapM.get, hk']

theorem backfill_get (base : Ctx) (s : Ctx) (k : String) :
    (backfill base (some s)).get k = firstSome (base.get k) (s.get k) :=
  backfillList_get k s base

/-- Claim C5.  When a parent operation context exists, its map is
authoritative: a key bound in the parent keeps the parent's value, whatever
the caller-supplied map, the agent's default map, or the trigger context say;
a key absent from the parent is filled from the caller-supplied map first,
then from the agent's default map. -/
theorem contextResolution_parent_authoritative (p rt : Ctx)
    (ag tg : Option Ctx) (k : String) :
    ((p.get k).isSome = true →
        (resolveContextMap (some p) (some rt) ag tg).get k = p.get k)
      ∧ (p.get k = none → (rt.get k).isSome = true →
        (resolveContextMap (some p) (some rt) ag tg).get k = rt.get k)
      ∧ (∀ a, p.get k = none → rt.get k = none → ag = some a →
        (a.get k).isSome = true →
        (resolveContextMap (some p) (some rt) ag tg).get k = a.get k) := by
  have hcore : ∀ m : Ctx, (m.get k).isSome = true →
      (backfill m tg).get k = m.get k := by
    intro m hm
    cases tg with
    | none => rfl
    | some t =>
        rw [backfill_get]
        obtain ⟨v, hv⟩ := Option.isSome_iff_exists.mp hm
        simp [firstSome, hv]
  refine ⟨?_, ?_, ?_⟩
  · intro hp
    obtain ⟨v, hv⟩ := Option.isSome_iff_exists.mp hp
    have hmid : (backfill (backfill p (some rt)) ag).get k = p.get k := by
      cases ag with
      | none => simp [backfill, backfillList_get, firstSome, hv]
      | some a => simp [backfill, backfillList_get, firstSome, hv]
    show (backfill (backfill (backfill p (some rt)) ag) tg).get k = p.get k
    rw [hcore _ (by rw [hmid, hv]; rfl), hmid]
  · intro hp hrt
    obtain ⟨v, hv⟩ := Option.isSome_iff_exists.mp hrt
    have hmid : (backfill (backfill p (some rt)) ag).get k = rt.get k := by
      cases ag with
      | none => simp [backfill, backfillList_get, firstSome, hp, hv]
      | some a => simp [backfill, backfillList_get, firstSome, hp, hv]
    show (backfill (backfill (backfill p (some rt)) ag) tg).get k = rt.get k
    rw [hcore _ (by rw [hmid, hv]; rfl), hmid]
  · intro a hp hrt hag ha
    obtain ⟨v, hv⟩ := Option.isSome_iff_exists.mp ha
    subst hag
    have hmid : (backfill (backfill p (some rt)) (some a)).get k = a.get k := by
      simp [backfill, backfillList_get, firstSome, hp, hrt, hv]
    show (backfill (backfill (backfill p (some rt)) (some a)) tg).get k = a.get k
    rw [hcore _ (by rw [hmid, hv]; rfl), hmid]

/-- Witness for C5: the spec's scenario — operation A's map binds
`userId → u1`, delegated operation B supplies `userId → u2`; B sees `u1`. -/
theorem contextResolution_parent_authoritative_witness :
    (resolveContextMap (some [("userId", "u1")]) (some [("userId", "u2")])
        none none).get "userId" = some "u1" :=
  (contextResolution_parent_authoritative [("userId", "u1")] [("userId", "u2")]
    none none "userId").1 (by decide)

/-! ## Abort-controller wiring (`createOperationContext`, claim C7) -/

/-- Reasons an abort can carry.  The `bail` tag is modelled from the spec
(`createBailError`/`isBailError` live in `agent/errors.ts`, outside the
provided sources): a tagged value carrying the sub-agent's name and final
response. -/
inductive AbortReason : Type where
  | bail : String → String → AbortReason
  | externalCancel : Nat → AbortReason
  | toolDenied : String → AbortReason
deriving Repr, DecidableEq

/-- `isBailError` (modelled from the spec): recognize the bail tag. -/
def isBailReason : AbortReason → Bool
  | .bail _ _ => true
  | _ => false

/-- An `AbortController`'s state: `none` while live, the reason once
aborted. -/
structure AbortCtrl : Type where
  aborted : Option AbortReason
deriving Repr, DecidableEq

/-- `AbortController.prototype.abort`: the first reason wins. -/
def AbortCtrl.abortWith (c : AbortCtrl) (r : AbortReason) : AbortCtrl :=
  match c.aborted with
  | some _ => c
  | none => { aborted := some r }

/-- What `createOperationContext` wires up for cancellation: which controller
the operation uses, whether it was freshly allocated, and which external
signals have a listener that aborts it. -/
structure AbortWiring : Type where
  controller : Nat
  createdFresh : Bool
  bridgedSignals : List Nat
deriving Repr, DecidableEq

/-- The controller selection and listener registration of
`createOperationContext`: reuse the parent's controller when present (no
listener is registered even when an external signal is supplied); otherwise
allocate a fresh controller and, when an external abort signal is supplied,
register a listener that aborts the fresh controller with the external
signal's reason. -/
def wireAbortController (parentController : Option Nat)
    (externalSignal : Option Nat) (freshId : Nat) : AbortWiring :=
  match parentController with
  | some c => { controller := c, createdFresh := false, bridgedSignals := [] }
  | none =>
      { controller := freshId
      , createdFresh := true
      , bridgedSignals :=
          match externalSignal with
          | some s => [s]
          | none => [] }

/-- The controller and the external signal, as separate pieces of state. -/
structure BridgeWorld : Type where
  ctrl : AbortCtrl
  externalFired : Option AbortReason
deriving Repr, DecidableEq

/-- The external signal fires with a reason: the registered listener (when
the signal is bridged) aborts the controller with the same reason unless it
is already aborted. -/
def fireExternal (w : BridgeWorld) (bridged : Bool) (r : AbortReason) : BridgeWorld :=
  { externalFired := some r
  , ctrl :=
      if bridged then
        (if w.ctrl.aborted.isSome then w.ctrl else w.ctrl.abortWith r)
      else w.ctrl }

/-- Aborting the controller directly: nothing listens on the controller, so
the external signal's state is untouched (the bridge is one-directional). -/
def abortControllerDirect (w : BridgeWorld) (r : AbortReason) : BridgeWorld :=
  { ctrl := w.ctrl.abortWith r, externalFired := w.externalFired }

/-- Claim C7.  Operation-context creation reuses the parent's controller
whenever one exists (and registers no bridge even if an external signal is
supplied); otherwise it allocates a fresh controller, bridging a supplied
external signal into it; when the external signal fires, the live fresh
controller is aborted with the external signal's reason; the bridge is
one-directional: aborting the controller leaves the external signal
untouched. -/
theorem abortController_wiring (parentCtrl freshId : Nat)
    (externalSignal : Option Nat) (w : BridgeWorld) (r : AbortReason) :
    (wireAbortController (some parentCtrl) externalSignal freshId
        = { controller := parentCtrl, createdFresh := false, bridgedSignals := [] })
      ∧ (∀ s, wireAbortController none (some s) freshId
          = { controller := freshId, createdFresh := true, bridgedSignals := [s] })
      ∧ (wireAbortController none none freshId
          = { controller := freshId, createdFresh := true, bridgedSignals := [] })
      ∧ (w.ctrl.aborted = none → (fireExternal w true r).ctrl.aborted = some r)
      ∧ ((abortControllerDirect w r).externalFired = w.externalFired) := by
  refine ⟨rfl, fun s => rfl, rfl, ?_, rfl⟩
  intro hw
  simp [fireExternal, AbortCtrl.abortWith, hw]

/-- Witness for C7 at concrete ids and a live controller. -/
theorem abortController_wiring_witness :
    (wireAbortController (some 3) (some 9) 7
        = { controller := 3, createdFresh := false, bridgedSignals := [] })
      ∧ (∀ s, wireAbortController none (some s) 7
          = { controller := 7, createdFresh := true, bridgedSignals := [s] })
      ∧ (wireAbortController none none 7
          = { controller := 7, createdFresh := true, bridgedSignals := [] })
      ∧ (({ ctrl := { aborted := none }, externalFired := none } :
            BridgeWorld).ctrl.aborted = none →
          (fireExternal { ctrl := { aborted := none }, externalFired := none }
              true (.externalCancel 9)).ctrl.aborted = some (.externalCancel 9))
      ∧ ((abortControllerDirect { ctrl := { aborted := none }, externalFired := none }
            (.externalCancel 9)).externalFired = none) :=
  abortController_wiring 3 7 (some 9)
    { ctrl := { aborted := none }, externalFired := none } (.externalCancel 9)

/-! ## Hook merging (`getMergedHooks`, claim C8) -/

/-- The agent hook set, over an observation type `τ`; each configured hook
is a function, `none` when not configured. -/
structure AgentHooks (τ : Type) : Type where
  onStart : Option (τ → τ)
  onEnd : Option (τ → τ)
  onError : Option (τ → τ)
  onHandoff : Option (τ → τ)
  onHandoffComplete : Option (τ → τ)
  onToolStart : Option (τ → τ)
  onToolEnd : Option (τ → τ)
  onStepFinish : Option (τ → τ)
  onPrepareMessages : Option (τ → τ)
  onPrepareModelMessages : Option (τ → τ)

/-- Invoke an optional hook (`await hook?.(...)`). -/
def applyHook {τ : Type} (h : Option (τ → τ)) (t : τ) : τ :=
  match h with
  | some f => f t
  | none => t

/-- `getMergedHooks` from `agent.ts`: without call-level hooks the agent's
hook set is returned unchanged; otherwise every lifecycle hook becomes a
composite that awaits the call-level hook then the agent-level hook, except
`onPrepareMessages`/`onPrepareModelMessages`, where the call-level hook
replaces the agent-level one (`options.hooks?.h || this.hooks.h`). -/
def getMergedHooks {τ : Type} (agentHooks : AgentHooks τ)
    (optionsHooks : Option (AgentHooks τ)) : AgentHooks τ :=
  match optionsHooks with
  | none => agentHooks
  | some oh =>
      { onStart := some (fun t => applyHook agentHooks.onStart (applyHook oh.onStart t))
      , onEnd := some (fun t => applyHook agentHooks.onEnd (applyHook oh.onEnd t))
      , onError := some (fun t => applyHook agentHooks.onError (applyHook oh.onError t))
      , onHandoff := some (fun t =>
          applyHook agentHooks.onHandoff (applyHook oh.onHandoff t))
      , onHandoffComplete := some (fun t =>
          applyHook agentHooks.onHandoffComplete (applyHook oh.onHandoffComplete t))
      , onToolStart := some (fun t =>
          applyHook agentHooks.onToolStart (applyHook oh.onToolStart t))
      , onToolEnd := some (fun t =>
          applyHook agentHooks.onToolEnd (applyHook oh.onToolEnd t))
      , onStepFinish := some (fun t =>
          applyHook agentHooks.onStepFinish (applyHook oh.onStepFinish t))
      , onPrepareMessages :=
          match oh.onPrepareMessages with
          | some f => some f
          | none => agentHooks.onPrepareMessages
      , onPrepareModelMessages :=
          match oh.onPrepareModelMessages with
          | some f => some f
          | none => agentHooks.onPrepareModelMessages }

/-- Claim C8.  For every lifecycle hook configured at both levels the merged
hook invokes both, call-level first (the merged hook applied to `t` equals
the agent-level hook applied to the call-level hook's output); for the two
prepare hooks a configured call-level hook fully replaces the agent-level
hook. -/
theorem getMergedHooks_order {τ : Type} (ah oh : AgentHooks τ) (t : τ) :
    (∀ c a, oh.onStart = some c → ah.onStart = some a →
        applyHook (getMergedHooks ah (some oh)).onStart t = a (c t))
      ∧ (∀ c a, oh.onEnd = some c → ah.onEnd = some a →
        applyHook (getMergedHooks ah (some oh)).onEnd t = a (c t))
      ∧ (∀ c a, oh.onError = some c → ah.onError = some a →
        applyHook (getMergedHooks ah (some oh)).onError t = a (c t))
      ∧ (∀ c a, oh.onHandoff = some c → ah.onHandoff = some a →
        applyHook (getMergedHooks ah (some oh)).onHandoff t = a (c t))
      ∧ (∀ c a, oh.onHandoffComplete = some c → ah.onHandoffComplete = some a →
        applyHook (getMergedHooks ah (some oh)).onHandoffComplete t = a (c t))
      ∧ (∀ c a, oh.onToolStart = some c → ah.onToolStart = some a →
        applyHook (getMergedHooks ah (some oh)).onToolStart t = a (c t))
      ∧ (∀ c a, oh.onToolEnd = some c → ah.onToolEnd = some a →
        applyHook (getMergedHooks ah (some oh)).onToolEnd t = a (c t))
      ∧ (∀ c a, oh.onStepFinish = some c → ah.onStepFinish = some a →
        applyHook (getMergedHooks ah (some oh)).onStepFinish t = a (c t))
      ∧ (∀ c, oh.onPrepareMessages = some c →
        (getMergedHooks ah (some oh)).onPrepareMessages = some c)
      ∧ (∀ c, oh.onPrepareModelMessages = some c →
        (getMergedHooks ah (some oh)).onPrepareModelMessages = some c) := by
  refine ⟨?_, ?_, ?_, ?_, ?_, ?_, ?_, ?_, ?_, ?_⟩ <;>
    first
      | (intro c a hc ha
         simp [getMergedHooks, applyHook, hc, ha])
      | (intro c hc
         simp [getMergedHooks, applyHook, hc])

/-- Call-level hooks appending odd markers. -/
def hooksCallW : AgentHooks (List Nat) :=
  { onStart := some (fun t => t ++ [1])
  , onEnd := some (fun t => t ++ [1])
  , onError := some (fun t => t ++ [1])
  , onHandoff := some (fun t => t ++ [1])
  , onHandoffComplete := some (fun t => t ++ [1])
  , onToolStart := some (fun t => t ++ [1])
  , onToolEnd := some (fun t => t ++ [1])
  , onStepFinish := some (fun t => t ++ [1])
  , onPrepareMessages := some (fun t => t ++ [5])
  , onPrepareModelMessages := some (fun t => t ++ [5]) }

/-- Agent-level hooks appending even markers. -/
def hooksAgentW : AgentHooks (List Nat) :=
  { onStart := some (fun t => t ++ [2])
  , onEnd := some (fun t => t ++ [2])
  , onError := some (fun t => t ++ [2])
  , onHandoff := some (fun t => t ++ [2])
  , onHandoffComplete := some (fun t => t ++ [2])
  , onToolStart := some (fun t => t ++ [2])
  , onToolEnd := some (fun t => t ++ [2])
  , onStepFinish := some (fun t => t ++ [2])
  , onPrepareMessages := some (fun t => t ++ [6])
  , onPrepareModelMessages := some (fun t => t ++ [6]) }

/-- Witness for C8: the merged `onStart` runs the call-level hook then the
agent-level hook; the merged `onPrepareMessages` is exactly the call-level
hook. -/
theorem getMergedHooks_order_witness :
    applyHook (getMergedHooks hooksAgentW (some hooksCallW)).onStart [0] = [0, 1, 2]
      ∧ (getMergedHooks hooksAgentW (some hooksCallW)).onPrepareMessages
          = some (fun t => t ++ [5]) :=
  ⟨(getMergedHooks_order hooksAgentW hooksCallW [0]).1
      (fun t => t ++ [1]) (fun t => t ++ [2]) rfl rfl,
    (getMergedHooks_order hooksAgentW hooksCallW [0]).2.2.2.2.2.2.2.2.1
      (fun t => t ++ [5]) rfl⟩

/-! ## The sub-agent bail protocol (claim C1) -/

/-- Finish reasons; the only error value is `error`. -/
inductive FinishReason : Type where
  | stop : FinishReason
  | lengthLimit : FinishReason
  | toolCalls : FinishReason
  | contentFilter : FinishReason
  | error : FinishReason
  | bail : FinishReason
deriving Repr, DecidableEq

/-- Is a finish reason an error value? -/
def isErrorFinish : FinishReason → Bool
  | .error => true
  | _ => false

/-- Modelled from the spec: the output-guardrail runner
(`runOutputGuardrails` in `agent/guardrail.ts`, outside the provided
sources).  Guardrails run sequentially in declaration order, each receiving
the previous guardrail's output and returning the unchanged or replaced
value.  The rejection path is not modelled; no claim exercises it. -/
def runOutputGuardrails (gs : List (String → String)) (s : String) : String :=
  gs.foldl (fun acc g => g acc) s

/-- The per-call state the step handler touches: the `systemContext` slice,
the shared abort controller, and the events delivered to `onStepFinish`. -/
structure StreamState : Type where
  sysCtx : MapM SysVal
  ctrl : AbortCtrl
  hookSteps : List StepEvent
deriving Repr, DecidableEq

/-- A fresh call's state. -/
def initStreamState : StreamState :=
  { sysCtx := MapM.empty, ctrl := { aborted := none }, hookSteps := [] }

/-- The bail extraction of the step handler: a tool-result part whose array
output contains an element tagged `bailed: true`; the recorded agent name is
`bailedResult.agentName || "unknown"` and the response is
`String(bailedResult.response || "")`. -/
def bailOfPart : StepPart → Option (String × String)
  | .toolResult tr =>
      match tr.output with
      | .arrOut items =>
          match items.find? (fun it => it.bailed) with
          | some it =>
              some (if it.agentName = "" then "unknown" else it.agentName,
                it.response)
          | none => none
      | .plain _ => none
  | _ => none

/-- The part loop of the step handler: on the first bail-tagged tool result
it records `{agentName, response}` under the `"bailedResult"` key, aborts the
shared controller with the bail-tagged reason, and stops processing the step
(the flag reports whether a bail fired). -/
def processParts (st : StreamState) : List StepPart → StreamState × Bool
  | [] => (st, false)
  | p :: ps =>
      match bailOfPart p with
      | some (a, r) =>
          ({ st with
              sysCtx := st.sysCtx.set "bailedResult" (.bailed a r)
            , ctrl := st.ctrl.abortWith (.bail a r) }, true)
      | none => processParts st ps

/-- The accumulator push of the step handler: append the event to the
`"conversationSteps"` entry of `systemContext` (created when absent). -/
def pushStep (st : StreamState) (e : StepEvent) : StreamState :=
  { st with
      sysCtx := st.sysCtx.set "conversationSteps"
        (.steps ((match sysStepsOf st.sysCtx with
          | some l => l
          | none => []) ++ [e])) }

/-- `createStepHandler`'s per-event behaviour (logging and the conversation
buffer omitted): push the event into the `"conversationSteps"` accumulator,
scan its parts for a bail — returning early when one fires — and otherwise
invoke the merged `onStepFinish` hook. -/
def stepHandler (st : StreamState) (e : StepEvent) : StreamState :=
  match processParts (pushStep st e) e.content with
  | (st2, true) => st2
  | (st2, false) => { st2 with hookSteps := st2.hookSteps ++ [e] }

/-- The model invocation delivers step-finish events until the shared
controller aborts (an abort ends the stream). -/
def runSteps (st : StreamState) : List StepEvent → StreamState
  | [] => st
  | e :: es =>
      if (st.ctrl.aborted).isSome then st
      else runSteps (stepHandler st e) es

/-- The first bail tag among a step's parts. -/
def findBailParts : List StepPart → Option (String × String)
  | [] => none
  | p :: ps =>
      match bailOfPart p with
      | some br => some br
      | none => findBailParts ps

/-- The first bail tag among the delivered events. -/
def findBailEvents : List StepEvent → Option (String × String)
  | [] => none
  | e :: es =>
      match findBailParts e.content with
      | some br => some br
      | none => findBailEvents es

theorem processParts_spec (parts : List StepPart) :
    ∀ st : StreamState,
      processParts st parts
        = match findBailParts parts with
          | some (a, r) =>
              ({ st with
                  sysCtx := st.sysCtx.set "bailedResult" (.bailed a r)
                , ctrl := st.ctrl.abortWith (.bail a r) }, true)
          | none => (st, false) := by
  induction parts with
  | nil => intro st; rfl
  | cons p ps ih =>
      intro st
      cases hb : bailOfPart p with
      | some br =>
          obtain ⟨a, r⟩ := br
          simp [processParts, findBailParts, hb]
      | none =>
          simp [processParts, findBailParts, hb, ih]

theorem stepHandler_bail (st : StreamState) (e : StepEvent) (a r : String)
    (hfp : findBailParts e.content = some (a, r)) :
    stepHandler st e
      = { pushStep st e with
            sysCtx := (pushStep st e).sysCtx.set "bailedResult" (.bailed a r)
          , ctrl := (pushStep st e).ctrl.abortWith (.bail a r) } := by
  rw [stepHandler, processParts_spec, hfp]

theorem stepHandler_nobail (st : StreamState) (e : StepEvent)
    (hfp : findBailParts e.content = none) :
    stepHandler st e
      = { pushStep st e with
            hookSteps := (pushStep st e).hookSteps ++ [e] } := by
  rw [stepHandler, processParts_spec, hfp]

theorem runSteps_aborted (events : List StepEvent) :
    ∀ st : StreamState, (st.ctrl.aborted).isSome = true →
      runSteps st events = st := by
  induction events with
  | nil => intro st _; rfl
  | cons e es _ =>
      intro st hst
      simp [runSteps, hst]

/-- The bail characterization of the event loop: if some delivered event
carries a bail tag (and the controller starts live), the loop ends with the
bail recorded in `systemContext` and the controller aborted with the
bail-tagged reason. -/
theorem runSteps_bail (a r : String) :
    ∀ (events : List StepEvent) (st : StreamState),
      st.ctrl.aborted = none →
      findBailEvents events = some (a, r) →
      ((runSteps st events).sysCtx.get "bailedResult" = some (.bailed a r))
        ∧ ((runSteps st events).ctrl.aborted = some (.bail a r)) := by
  intro events
  induction events with
  | nil => intro st _ hfind; cases hfind
  | cons e es ih =>
      intro st hlive hfind
      have hrun : runSteps st (e :: es) = runSteps (stepHandler st e) es := by
        show (if (st.ctrl.aborted).isSome then st
            else runSteps (stepHandler st e) es) = _
        rw [hlive]
        rfl
      rw [hrun]
      rw [findBailEvents] at hfind
      cases hfp : findBailParts e.content with
      | some br =>
          obtain ⟨a', r'⟩ := br
          rw [hfp] at hfind
          injection hfind with hfind
          have ha : a' = a := congrArg Prod.fst hfind
          have hr : r' = r := congrArg Prod.snd hfind
          subst ha
          subst hr
          rw [stepHandler_bail st e a' r' hfp]
          have hab : ({ pushStep st e with
              sysCtx := (pushStep st e).sysCtx.set "bailedResult" (.bailed a' r')
            , ctrl := (pushStep st e).ctrl.abortWith
                (.bail a' r') } : StreamState).ctrl.aborted
              = some (.bail a' r') := by
            show (st.ctrl.abortWith (.bail a' r')).aborted = some (.bail a' r')
            rw [AbortCtrl.abortWith, hlive]
          rw [runSteps_aborted es _ (by rw [hab]; rfl)]
          refine ⟨?_, hab⟩
          exact MapM.get_set_self _ _ _
      | none =>
          rw [hfp] at hfind
          rw [stepHandler_nobail st e hfp]
          exact ih _ hlive hfind

/-- Outcome of a `generateText` call. -/
structure GenTextOutput : Type where
  text : String
  finishReason : FinishReason
deriving Repr, DecidableEq

/-- The `generateText` entry point around the model invocation (tracing,
logging, buffering omitted): deliver the step events; when the shared
controller aborted, the SDK call throws the abort reason; the catch block
recognizes a bail, reads `"bailedResult"` from `systemContext`, runs the
output guardrails over the bailed response and returns it as a successful
generation with finish reason `"bail"`; any other throw reaches
`handleError` and is rethrown (`Except.error`). -/
def runGenerateText (events : List StepEvent) (modelText : String)
    (modelFinish : FinishReason) (gs : List (String → String)) :
    StreamState × Except AbortReason GenTextOutput :=
  let st := runSteps initStreamState events
  match st.ctrl.aborted with
  | none =>
      (st, .ok { text := runOutputGuardrails gs modelText
               , finishReason := modelFinish })
  | some reason =>
      if isBailReason reason then
        match st.sysCtx.get "bailedResult" with
        | some (.bailed _ r) =>
            (st, .ok { text := runOutputGuardrails gs r, finishReason := .bail })
        | _ => (st, .error reason)
      else (st, .error reason)

/-- What a `streamText` call exposes: the final text computed in `onFinish`
(`oc.output`), the finish reason recorded on the trace, and the value the
caller's `result.text` promise resolves to. -/
structure StreamTextOutput : Type where
  onFinishText : String
  traceFinish : FinishReason
  textPromise : String
deriving Repr, DecidableEq

/-- The pipeline finalize path (the sanitized-text accessor lives in
`agent/streaming/guardrail-stream.ts`, outside the provided sources, and is
modelled from the spec as the guardrails applied to the complete text): use
the sanitized text when non-empty, else the bailed response, else the model
text. -/
def pipelineText (gs : List (String → String)) (aiText : String)
    (bailed : Option (String × String)) : String :=
  let sanitized := runOutputGuardrails gs aiText
  if sanitized = "" then
    match bailed with
    | some (_, r) => if r = "" then aiText else r
    | none => aiText
  else sanitized

/-- The `streamText` entry point around the model invocation: deliver the
step events, then compute what `onFinish` and the caller-facing text promise
produce.  In `onFinish`, a recorded bail result replaces the supervisor's
own text (guardrails applied when configured) and the trace finish reason is
forced to `"stop"`; without guardrails the text promise resolves to
`bailedResult?.response || aiSdkText`. -/
def runStreamText (events : List StepEvent) (aiText : String)
    (modelFinish : FinishReason) (gs : List (String → String)) :
    StreamState × StreamTextOutput :=
  let st := runSteps initStreamState events
  let bailed : Option (String × String) :=
    match st.sysCtx.get "bailedResult" with
    | some (.bailed a r) => some (a, r)
    | _ => none
  let onFinishText :=
    match bailed with
    | some (_, r) => if gs.length = 0 then r else runOutputGuardrails gs r
    | none => if gs.length = 0 then aiText else pipelineText gs aiText bailed
  let traceFinish :=
    match bailed with
    | some _ => FinishReason.stop
    | none => modelFinish
  let textPromise :=
    if gs.length = 0 then
      match bailed with
      | some (_, r) => if r = "" then aiText else r
      | none => aiText
    else pipelineText gs aiText bailed
  (st, { onFinishText := onFinishText
       , traceFinish := traceFinish
       , textPromise := textPromise })

/-- Claim C1 (counterexample data): a step whose tool result bails with
response `"answer"`. -/
def bailEventCx : StepEvent :=
  { content := [.toolResult
      { toolCallId := "t1"
      , toolName := "delegate"
      , output := .arrOut
          [{ bailed := true, agentName := "sub", response := "answer", payload := "" }] }]
  , text := ""
  , toolCalls := []
  , toolResults := []
  , usage := 0 }

/-- Claim C1 (counterexample).  The claim says the supervisor's final output
always equals the bailed response.  With a replacing output guardrail
configured, the bail is recorded and the call still succeeds, but the final
output is the guardrail's replacement, not the bailed response. -/
theorem bail_output_transformed_by_guardrail :
    ((runGenerateText [bailEventCx] "model-text" .stop
          [fun _ => "REDACTED"]).1.sysCtx.get "bailedResult"
        = some (.bailed "sub" "answer"))
      ∧ (runGenerateText [bailEventCx] "model-text" .stop
            [fun _ => "REDACTED"]).2
          = .ok { text := "REDACTED", finishReason := .bail }
      ∧ (runGenerateText [bailEventCx] "model-text" .stop
            [fun _ => "REDACTED"]).2
          ≠ .ok { text := "answer", finishReason := .bail } := by
  have h2 : (runGenerateText [bailEventCx] "model-text" .stop
      [fun _ => "REDACTED"]).2
        = .ok { text := "REDACTED", finishReason := .bail } := by rfl
  refine ⟨by decide, h2, ?_⟩
  rw [h2]
  intro hcontra
  injection hcontra with hcontra
  have htext : "REDACTED" = "answer" := congrArg GenTextOutput.text hcontra
  exact absurd htext (by decide)

/-- Claim C1 (corrected).  For every call in which a delivered sub-agent
tool result is tagged `bailed: true` (first tag `(a, r)`), both entry points
record `{agentName, response}` under the `"bailedResult"` key, abort the
shared controller with the bail-tagged reason, and finish successfully with
the bailed response pushed through the configured output guardrails — which
is exactly the bailed response when no output guardrail is configured (for
the streaming text promise: when the response is also non-empty).  The
finish reasons (`"bail"`, `"stop"`) are success values, never the error
value. -/
theorem bail_protocol (events : List StepEvent) (modelText aiText : String)
    (modelFinish : FinishReason) (gs : List (String → String))
    (a r : String) (hbail : findBailEvents events = some (a, r)) :
    ((runSteps initStreamState events).sysCtx.get "bailedResult"
        = some (.bailed a r))
      ∧ ((runSteps initStreamState events).ctrl.aborted = some (.bail a r))
      ∧ (runGenerateText events modelText modelFinish gs).2
          = .ok { text := runOutputGuardrails gs r, finishReason := .bail }
      ∧ isErrorFinish .bail = false
      ∧ (runStreamText events aiText modelFinish gs).2.onFinishText
          = (if gs.length = 0 then r else runOutputGuardrails gs r)
      ∧ (runStreamText events aiText modelFinish gs).2.traceFinish = .stop
      ∧ isErrorFinish .stop = false
      ∧ (gs = [] → r ≠ "" →
          (runStreamText events aiText modelFinish gs).2.textPromise = r)
      ∧ (gs = [] →
          (runGenerateText events modelText modelFinish gs).2
            = .ok { text := r, finishReason := .bail }) := by
  obtain ⟨hget, habort⟩ :=
    runSteps_bail a r events initStreamState rfl hbail
  have hgen : (runGenerateText events modelText modelFinish gs).2
      = .ok { text := runOutputGuardrails gs r, finishReason := .bail } := by
    simp only [runGenerateText]
    rw [habort, hget]
    rfl
  refine ⟨hget, habort, hgen, rfl, ?_, ?_, rfl, ?_, ?_⟩
  · simp only [runStreamText]
    rw [hget]
  · simp only [runStreamText]
    rw [hget]
  · intro hgs hr
    simp only [runStreamText]
    rw [hget]
    simp [hgs, hr]
  · intro hgs
    rw [hgen, hgs]
    rfl

/-- Witness for C1 at a concrete bailing call with no guardrails. -/
theorem bail_protocol_witness :
    ((runSteps initStreamState [bailEventCx]).sysCtx.get "bailedResult"
        = some (.bailed "sub" "answer"))
      ∧ ((runSteps initStreamState [bailEventCx]).ctrl.aborted
          = some (.bail "sub" "answer"))
      ∧ (runGenerateText [bailEventCx] "m" .stop []).2
          = .ok { text := "answer", finishReason := .bail }
      ∧ (runStreamText [bailEventCx] "ai" .stop []).2.onFinishText = "answer"
      ∧ (runStreamText [bailEventCx] "ai" .stop []).2.traceFinish = .stop
      ∧ (runStreamText [bailEventCx] "ai" .stop []).2.textPromise = "answer" := by
  have h := bail_protocol [bailEventCx] "m" "ai" .stop [] "sub" "answer" rfl
  exact ⟨h.1, h.2.1, h.2.2.2.2.2.2.2.2 rfl, h.2.2.2.2.1, h.2.2.2.2.2.1,
    h.2.2.2.2.2.2.2.1 rfl (by decide)⟩

/-! ## Stream selection in `streamText` (claim C6) -/

/-- Where the caller-facing text stream comes from. -/
inductive TextStreamChoice : Type where
  | raw : TextStreamChoice
  | pipeline : TextStreamChoice
deriving Repr, DecidableEq

/-- Where the caller-facing full stream comes from. -/
inductive FullStreamChoice : Type where
  | abortWrappedRaw : FullStreamChoice
  | mergedSubAgent : FullStreamChoice
  | pipeline : FullStreamChoice
deriving Repr, DecidableEq

/-- Where the caller-facing UI stream comes from. -/
inductive UIStreamChoice : Type where
  | raw : UIStreamChoice
  | mergedUI : UIStreamChoice
  | pipeline : UIStreamChoice
deriving Repr, DecidableEq

/-- The caller-facing stream wiring of one `streamText` call. -/
structure StreamSelection : Type where
  pipelineConstructed : Bool
  textStream : TextStreamChoice
  fullStream : FullStreamChoice
  uiStream : UIStreamChoice
deriving Repr, DecidableEq

/-- The stream wiring of `streamText`: the guardrail pipeline is constructed
iff at least one output guardrail is configured
(`guardrailSet.output.length > 0`); the text/full/UI streams handed to the
caller come from the pipeline when it exists and from the raw result
otherwise — the full stream always behind the abort-handling wrapper, and
agents with sub-agents get the merged full/UI streams. -/
def selectStreams (outputGuardrailCount : Nat) (hasSubAgents : Bool) :
    StreamSelection :=
  let enabled : Bool := decide (0 < outputGuardrailCount)
  { pipelineConstructed := enabled
  , textStream := if enabled then .pipeline else .raw
  , fullStream :=
      if enabled then .pipeline
      else if hasSubAgents then .mergedSubAgent else .abortWrappedRaw
  , uiStream :=
      if hasSubAgents then .mergedUI
      else if enabled then .pipeline else .raw }

/-- Chunk-level semantics of `wrapWithAbortHandling`: chunks are forwarded
one by one as they arrive; when the controller aborts after `k` chunks the
loop exits cleanly; no chunk is buffered, reordered or altered. -/
def wrapWithAbortHandling {α : Type} (abortAfter : Option Nat)
    (chunks : List α) : List α :=
  match abortAfter with
  | none => chunks
  | some k => chunks.take k

/-- Claim C6 (counterexample).  The claim says that with zero output
guardrails all three caller-facing streams are the model's raw streams.  For
a supervisor with sub-agents the full and UI streams are the merged
sub-agent streams even with zero guardrails. -/
theorem selectStreams_subAgents_not_raw :
    (selectStreams 0 true).uiStream ≠ UIStreamChoice.raw
      ∧ (selectStreams 0 true).fullStream ≠ FullStreamChoice.abortWrappedRaw := by
  decide

/-- Claim C6 (corrected).  For every streaming call with zero output
guardrails the guardrail pipeline is not constructed, and — for agents
without sub-agents — the text and UI streams are the raw model streams and
the full stream is the abort-handling wrapper, which forwards the model's
chunks unchanged with no buffering stage; the pipeline is constructed iff at
least one output guardrail is configured. -/
theorem selectStreams_no_guardrails {α : Type} (g : Nat) (hasSub : Bool)
    (chunks : List α) :
    (g = 0 →
        (selectStreams g hasSub).pipelineConstructed = false
          ∧ (selectStreams g hasSub).textStream = .raw
          ∧ (hasSub = false →
              (selectStreams g hasSub).uiStream = .raw
                ∧ (selectStreams g hasSub).fullStream = .abortWrappedRaw)
          ∧ wrapWithAbortHandling none chunks = chunks)
      ∧ ((selectStreams g hasSub).pipelineConstructed = true ↔ 0 < g) := by
  constructor
  · intro hg
    subst hg
    refine ⟨rfl, rfl, ?_, rfl⟩
    intro hs
    subst hs
    exact ⟨rfl, rfl⟩
  · constructor
    · intro hp
      by_contra hgz
      have hg0 : g = 0 := by omega
      subst hg0
      simp [selectStreams] at hp
    · intro hgpos
      simp [selectStreams, hgpos]

/-- Witness for C6 at a zero-guardrail, no-sub-agent call. -/
theorem selectStreams_no_guardrails_witness :
    ((selectStreams 0 false).pipelineConstructed = false
        ∧ (selectStreams 0 false).textStream = .raw
        ∧ (false = false →
            (selectStreams 0 false).uiStream = .raw
              ∧ (selectStreams 0 false).fullStream = .abortWrappedRaw)
        ∧ wrapWithAbortHandling none [1, 2, 3] = [1, 2, 3])
      ∧ ((selectStreams 0 false).pipelineConstructed = true ↔ 0 < 0) :=
  ⟨(selectStreams_no_guardrails 0 false [1, 2, 3]).1 rfl,
    (selectStreams_no_guardrails 0 false [1, 2, 3]).2⟩

end Voltagent
